import Mathlib

/-!
Verification of the markdown-to-Tana converter (`tana_converter.py`).

The embedding works over `List Char` (one Lean `Char` per Python code point).
Each definition is translated from the correspondingly named Python function;
regular-expression operations are translated into explicit scanners whose
semantics (greedy repetition with backtracking, ordered alternation,
leftmost-first substitution) follow the Python `re` module on the patterns
that appear in the source.  Runtime errors of the Python code (list index
out of range) are modelled with `Except PyErr`.
-/

namespace Tana

/-- The single runtime error class the Python code can actually hit:
`IndexError` from `last_parent_at_level[effective_indent - 1]` in
`build_hierarchy` and from `protected_items[int(m.group(1))]` in the
placeholder-restoring substitutions. -/
inductive PyErr where
  | indexError
deriving Repr, DecidableEq

instance {ε α : Type} [DecidableEq ε] [DecidableEq α] : DecidableEq (Except ε α) :=
  fun x y =>
    match x, y with
    | .ok a, .ok b =>
      if h : a = b then .isTrue (by rw [h]) else .isFalse (by simp [h])
    | .error a, .error b =>
      if h : a = b then .isTrue (by rw [h]) else .isFalse (by simp [h])
    | .ok _, .error _ => .isFalse (fun hh => Except.noConfusion hh)
    | .error _, .ok _ => .isFalse (fun hh => Except.noConfusion hh)

/-- Python `\s` / `str.strip` whitespace, restricted to the ASCII range
(space, tab, newline, carriage return, vertical tab, form feed). -/
def wsB (c : Char) : Bool :=
  c = ' ' || c = '\t' || c = '\n' || c = '\r' || c = Char.ofNat 11 || c = Char.ofNat 12

/-- Python `\d` (ASCII digits). -/
def digitB (c : Char) : Bool := '0' ≤ c && c ≤ '9'

/-- Python character class `[A-Z]`. -/
def upperB (c : Char) : Bool := 'A' ≤ c && c ≤ 'Z'

/-- Python character class `[a-z]`. -/
def lowerB (c : Char) : Bool := 'a' ≤ c && c ≤ 'z'

/-- Shorthand: the character list of a string literal. -/
def strL (s : String) : List Char := s.data

/-- Python `str.startswith`. -/
def startsWithL (p s : List Char) : Bool := s.take p.length = p

/-- Python `str.endswith`. -/
def endsWithL (p s : List Char) : Bool :=
  decide (p.length ≤ s.length) && s.drop (s.length - p.length) = p

/-- Python `str.split('\n')`: always returns at least one piece, pieces do
not contain the separator. -/
def splitNl : List Char → List (List Char)
  | [] => [[]]
  | c :: cs =>
    if c = '\n' then [] :: splitNl cs
    else
      match splitNl cs with
      | [] => [[c]]
      | l :: ls => (c :: l) :: ls

/-- Python `'\n'.join(...)`. -/
def joinNl : List (List Char) → List Char
  | [] => []
  | [l] => l
  | l :: ls => l ++ '\n' :: joinNl ls

/-- Python `str.rstrip()`. -/
def pyRstrip (l : List Char) : List Char := (l.reverse.dropWhile wsB).reverse

/-- Python `str.strip()`. -/
def pyStrip (l : List Char) : List Char := pyRstrip (l.dropWhile wsB)

/-- The list is nonempty and its first character is not whitespace. -/
def headNotWs (l : List Char) : Bool :=
  match l.head? with
  | some c => !wsB c
  | none => false

/-- The list is nonempty and its last character is not whitespace. -/
def lastNotWs (l : List Char) : Bool :=
  match l.getLast? with
  | some c => !wsB c
  | none => false

/-- The list contains no newline. -/
def noNl (l : List Char) : Bool := !l.contains '\n'

/-- The list is nonempty and starts with a character that is neither
whitespace nor `#` nor a backtick: such a line is classified as plain
content (not blank, not a heading, not a code fence) at indent level 0. -/
def plainHeadB (l : List Char) : Bool :=
  match l.head? with
  | some c => !wsB c && c ≠ '#' && c ≠ '`'
  | none => false

/-- `Line` record from `tana_converter.py` (class `Line`).  `parent` is
`None` initially; `build_hierarchy` assigns either `-1` (top level) or the
index of the parent line. -/
structure LineRec where
  content : List Char
  indent : Nat
  raw : List Char
  is_header : Bool
  is_code_block : Bool
  parent : Option Int := none
deriving Repr, DecidableEq

/-- `parse_line`: leading-whitespace count gives the indent level
(`spaces // 2`), content is the line without indentation, right-stripped;
a header starts with `#`, a code fence starts with three backticks. -/
def parse_line (line : List Char) : LineRec :=
  let spaces := (line.takeWhile wsB).length
  let content := pyRstrip (line.drop spaces)
  { content := content
    indent := spaces / 2
    raw := line
    is_header := startsWithL (strL "#") content
    is_code_block := startsWithL (strL "```") content
    parent := none }

/-- Last element of the parent stack (`last_parent_at_level[-1]`).  The
stack is provably never empty (it starts as `[-1]`, truncations keep at
least one element and every update appends), so the default is never
used. -/
def stackLast (stack : List Int) : Int := (stack.getLast?).getD (-1)

/-- Parent selection for a non-header, non-fence, non-blank line
(`build_hierarchy` lines 93-98): at indent 0 the most recent header (or
`-1`); at deeper indents `last_parent_at_level[effective_indent - 1]`,
which raises `IndexError` when the stack is too short. -/
def parentFor (e : Nat) (lastHeader : Option Nat) (stack : List Int) :
    Except PyErr Int :=
  if e = 0 then
    match lastHeader with
    | some h => .ok (Int.ofNat h)
    | none => .ok (-1)
  else
    match stack.get? (e - 1) with
    | some p => .ok p
    | none => .error .indexError

/-- Stack update after assigning a parent (`build_hierarchy` lines
100-104): append the line index when the level is new, otherwise replace
in place. -/
def stackUpdate (e : Nat) (i : Nat) (stack : List Int) : List Int :=
  if stack.length ≤ e then stack ++ [Int.ofNat i] else stack.set e (Int.ofNat i)

/-- The loop of `build_hierarchy`.  Note the faithful modelling of the
code-fence branch: the Python code sets `in_code_block = True` and
immediately clears it again within the same iteration (lines 66-74), so
`in_code_block` is `False` at the start of every iteration and the branch
fires exactly for the fence lines themselves; each fence line gets
`last_parent_at_level[-1]` as parent and the state is left unchanged. -/
def buildAux : List LineRec → Nat → Option Nat → List Int →
    Except PyErr (List LineRec)
  | [], _, _, _ => .ok []
  | ln :: rest, i, lastHeader, stack =>
    let c := pyStrip ln.content
    if c = [] then
      -- skip empty lines
      match buildAux rest (i + 1) lastHeader stack with
      | .error e => .error e
      | .ok rs => .ok (ln :: rs)
    else if ln.is_code_block then
      -- code-fence line: parent = last_parent_at_level[-1]
      match buildAux rest (i + 1) lastHeader stack with
      | .error e => .error e
      | .ok rs => .ok ({ ln with parent := some (stackLast stack) } :: rs)
    else if ln.is_header then
      -- header: parent = -1; truncate the stack to the header level and push
      let level := (c.takeWhile (· = '#')).length
      match buildAux rest (i + 1) (some i) (stack.take level ++ [Int.ofNat i]) with
      | .error e => .error e
      | .ok rs => .ok ({ ln with parent := some (-1) } :: rs)
    else
      -- list items and content
      let e := ln.indent
      let stack1 := stack.take (e + 1)
      match parentFor e lastHeader stack1 with
      | .error er => .error er
      | .ok p =>
        match buildAux rest (i + 1) lastHeader (stackUpdate e i stack1) with
        | .error er => .error er
        | .ok rs => .ok ({ ln with parent := some p } :: rs)

/-- `build_hierarchy`. -/
def build_hierarchy (lines : List LineRec) : Except PyErr (List LineRec) :=
  if lines = [] then .ok lines else buildAux lines 0 none [-1]

/-- Length of the proper ancestor chain above a parent index, following
parent pointers while they are non-`None` and non-negative (the `while`
loop of `convert_to_tana` lines 300-302).  `fuel` bounds the walk; parent
indices produced by `build_hierarchy` strictly decrease, so
`fuel = hierarchical_lines.length` always suffices. -/
def depthWalk (all : List LineRec) : Nat → Nat → Nat
  | 0, _ => 0
  | fuel + 1, p =>
    match all.get? p with
    | none => 0
    | some ln =>
      match ln.parent with
      | none => 0
      | some q => if q < 0 then 0 else 1 + depthWalk all fuel q.toNat

/-- Rendering depth of a line from its parent pointer
(`convert_to_tana` lines 296-303): 0 when the parent is `None` or `-1`,
otherwise one more than the ancestor count of the parent. -/
def depthOf (all : List LineRec) (pa : Option Int) : Nat :=
  match pa with
  | none => 0
  | some p => if p < 0 then 0 else 1 + depthWalk all all.length p.toNat

/-- `"  " * depth`. -/
def indentChars (d : Nat) : List Char := List.replicate (2 * d) ' '

/-- `process_code_block`: join the stripped interior lines, dropping the
two fence delimiter lines (`lines[1:-1]`). -/
def process_code_block (lines : List (List Char)) : List Char :=
  joinNl (((lines.drop 1).dropLast).map pyStrip)

/-- The record `build_hierarchy` leaves for an interior line of a fenced
code block when the line is blank or plain content: a blank line is
skipped and keeps its parsed record, a content line gets parent `-1`. -/
def fenceInner (l : List Char) : LineRec :=
  if l.all wsB then parse_line l
  else LineRec.mk (pyRstrip l) 0 l false false (some (-1))

/-- The parent index `build_hierarchy` assigns to the closing fence of a
block with interior lines `ls`, scanned from line index `i` with current
stack top `p`: blank lines leave the stack untouched, each content line
becomes the new stack top. -/
def fenceParent : List (List Char) → Nat → Int → Int
  | [], _, p => p
  | l :: rest, i, p =>
    if l.all wsB then fenceParent rest (i + 1) p
    else fenceParent rest (i + 1) ((i : Nat) : Int)

/-! ### Date parsing (`parse_date` and helpers) -/

/-- The `type` field of the Python `ParsedDate` class. -/
inductive DateType where
  | simple
  | time
  | week
  | duration
deriving Repr, DecidableEq

/-- `ParsedDate` record. -/
structure ParsedDate where
  dtype : DateType
  value : List Char
  is_processed : Bool := false
deriving Repr, DecidableEq

/-- `get_month_number`: month name (full or 3-letter) to a 2-digit string,
`"01"` for anything unknown. -/
def get_month_number (m : List Char) : List Char :=
  if m = strL "January" ∨ m = strL "Jan" then strL "01"
  else if m = strL "February" ∨ m = strL "Feb" then strL "02"
  else if m = strL "March" ∨ m = strL "Mar" then strL "03"
  else if m = strL "April" ∨ m = strL "Apr" then strL "04"
  else if m = strL "May" then strL "05"
  else if m = strL "June" ∨ m = strL "Jun" then strL "06"
  else if m = strL "July" ∨ m = strL "Jul" then strL "07"
  else if m = strL "August" ∨ m = strL "Aug" then strL "08"
  else if m = strL "September" ∨ m = strL "Sep" then strL "09"
  else if m = strL "October" ∨ m = strL "Oct" then strL "10"
  else if m = strL "November" ∨ m = strL "Nov" then strL "11"
  else if m = strL "December" ∨ m = strL "Dec" then strL "12"
  else strL "01"

/-- Python `str.zfill(2)`. -/
def zfill2 (d : List Char) : List Char :=
  if d.length < 2 then List.replicate (2 - d.length) '0' ++ d else d

/-- Decimal digits of a natural number (Python `str(n)`). -/
def natDigits (n : Nat) : List Char := Nat.toDigits 10 n

/-- Python format `f"{n:02d}"`. -/
def fmt02 (n : Nat) : List Char := zfill2 (natDigits n)

/-- Python `int` on a digit string. -/
def digitsToNat (ds : List Char) : Nat :=
  ds.foldl (fun a c => a * 10 + (c.toNat - 48)) 0

/-- `\d{k}`: exactly `k` digits (what follows is unconstrained). -/
def takeDigits (k : Nat) (s : List Char) : Option (List Char × List Char) :=
  let d := s.take k
  if d.length = k && d.all digitB then some (d, s.drop k) else none

/-- Try alternatives in order; used to model regex backtracking. -/
def firstSome {α β : Type} : List α → (α → Option β) → Option β
  | [], _ => none
  | a :: as, f =>
    match f a with
    | some b => some b
    | none => firstSome as f

/-- `(\d{1,2})` with greedy backtracking: candidate matches longest
first. -/
def tryD12 : List Char → List (List Char × List Char)
  | c1 :: c2 :: rest =>
    (if digitB c1 && digitB c2 then [([c1, c2], rest)] else []) ++
    (if digitB c1 then [([c1], c2 :: rest)] else [])
  | [c1] => if digitB c1 then [([c1], [])] else []
  | [] => []

/-- `(?:st|nd|rd|th)?` with greedy backtracking: the consuming candidate
first, then the empty one. -/
def tryOrdinal : List Char → List (List Char × List Char)
  | a :: b :: rest =>
    if (a = 's' && b = 't') || (a = 'n' && b = 'd') ||
       (a = 'r' && b = 'd') || (a = 't' && b = 'h') then
      [([a, b], rest), ([], a :: b :: rest)]
    else [([], a :: b :: rest)]
  | s => [([], s)]

/-- `(?:(?:Mon|Tue|Wed|Thu|Fri|Sat|Sun),\s+)?` with greedy backtracking:
with-prefix candidate first.  The `\s+` is committed to the maximal run
because what follows (`[A-Z]`) is never whitespace. -/
def tryWeekday (s : List Char) : List (List Char × List Char) :=
  let names := [strL "Mon", strL "Tue", strL "Wed", strL "Thu", strL "Fri",
                strL "Sat", strL "Sun"]
  match names.find? (fun n => startsWithL n s) with
  | some n =>
    match s.drop n.length with
    | ',' :: t =>
      let ws := t.takeWhile wsB
      if ws = [] then [([], s)]
      else [(n ++ ',' :: ws, t.drop ws.length), ([], s)]
    | _ => [([], s)]
  | none => [([], s)]

/-- `^Week (\d{1,2}),\s*(\d{4})$`: returns (week, year). -/
def matchWeek (text : List Char) : Option (List Char × List Char) :=
  if startsWithL (strL "Week ") text then
    firstSome (tryD12 (text.drop 5)) fun wd =>
      match wd.2 with
      | ',' :: s2 =>
        let s3 := s2.dropWhile wsB
        match takeDigits 4 s3 with
        | some (y, rest) => if rest = [] then some (wd.1, y) else none
        | none => none
      | _ => none
  else none

/-- `^Weeks (\d{1,2})-(\d{1,2}),\s*(\d{4})$`: returns (week1, week2, year). -/
def matchWeeks (text : List Char) : Option (List Char × List Char × List Char) :=
  if startsWithL (strL "Weeks ") text then
    firstSome (tryD12 (text.drop 6)) fun w1 =>
      match w1.2 with
      | '-' :: s2 =>
        firstSome (tryD12 s2) fun w2 =>
          match w2.2 with
          | ',' :: s4 =>
            let s5 := s4.dropWhile wsB
            match takeDigits 4 s5 with
            | some (y, rest) => if rest = [] then some (w1.1, w2.1, y) else none
            | none => none
          | _ => none
      | _ => none
  else none

/-- `(\d{4}-\d{2}-\d{2})` as a prefix: returns (matched, rest). -/
def matchIsoDatePrefix (s : List Char) : Option (List Char × List Char) :=
  match takeDigits 4 s with
  | some (y, s1) =>
    match s1 with
    | '-' :: s2 =>
      match takeDigits 2 s2 with
      | some (mo, s3) =>
        match s3 with
        | '-' :: s4 =>
          match takeDigits 2 s4 with
          | some (d, s5) => some (y ++ '-' :: mo ++ '-' :: d, s5)
          | none => none
        | _ => none
      | none => none
    | _ => none
  | none => none

/-- `^(\d{4}-\d{2}-\d{2})\s+(\d{2}:\d{2})$`: returns (date, time).  The
`\s+` is committed to the maximal run (a digit follows). -/
def matchIsoTime (text : List Char) : Option (List Char × List Char) :=
  match matchIsoDatePrefix text with
  | some (d, s1) =>
    let ws := s1.takeWhile wsB
    if ws = [] then none
    else
      let s2 := s1.drop ws.length
      match takeDigits 2 s2 with
      | some (hh, s3) =>
        match s3 with
        | ':' :: s4 =>
          match takeDigits 2 s4 with
          | some (mm, rest) =>
            if rest = [] then some (d, hh ++ ':' :: mm) else none
          | none => none
        | _ => none
      | none => none
  | none => none

/-- The time tail `,\s*(\d{1,2}):(\d{2})\s*(AM|PM)` anchored at the end
(`$`): returns (hour, minutes, ampm). -/
def matchLegacyTimeTail (s : List Char) : Option (List Char × List Char × List Char) :=
  match s with
  | ',' :: s1 =>
    let s2 := s1.dropWhile wsB
    firstSome (tryD12 s2) fun hr =>
      match hr.2 with
      | ':' :: s3 =>
        match takeDigits 2 s3 with
        | some (mn, s4) =>
          let s5 := s4.dropWhile wsB
          if s5 = strL "AM" then some (hr.1, mn, strL "AM")
          else if s5 = strL "PM" then some (hr.1, mn, strL "PM")
          else none
        | none => none
      | _ => none
  | _ => none

/-- The legacy long-form pattern
`^(?:(?:Mon|...),\s+)?([A-Z][a-z]+)\s+(\d{1,2})(?:st|nd|rd|th)?,\s*(\d{4})(?:,\s*(\d{1,2}):(\d{2})\s*(AM|PM))?$`:
returns (month, day, year, optional (hour, minutes, ampm)).  Maximal-run
commitment applies to `[a-z]+` and every `\s+`/`\s*` (the follow sets
contain no lowercase letter / whitespace). -/
def matchLegacy (text : List Char) :
    Option (List Char × List Char × List Char ×
            Option (List Char × List Char × List Char)) :=
  firstSome (tryWeekday text) fun wk =>
    match wk.2 with
    | c :: s1 =>
      if upperB c then
        let low := s1.takeWhile lowerB
        if low = [] then none
        else
          let s2 := s1.drop low.length
          let ws := s2.takeWhile wsB
          if ws = [] then none
          else
            firstSome (tryD12 (s2.drop ws.length)) fun day =>
              firstSome (tryOrdinal day.2) fun od =>
                match od.2 with
                | ',' :: s6 =>
                  let s7 := s6.dropWhile wsB
                  match takeDigits 4 s7 with
                  | some (year, s8) =>
                    (match matchLegacyTimeTail s8 with
                     | some t => some (c :: low, day.1, year, some t)
                     | none => if s8 = [] then some (c :: low, day.1, year, none) else none)
                  | none => none
                | _ => none
      else none
    | [] => none

/-- One half `([A-Z][a-z]+)\s+(\d{1,2})(?:st|nd|rd|th)?` of the mixed
duration pattern: returns (month, day, rest). -/
def matchMonthDay (s : List Char) : Option (List Char × List Char × List Char) :=
  match s with
  | c :: s1 =>
    if upperB c then
      let low := s1.takeWhile lowerB
      if low = [] then none
      else
        let s2 := s1.drop low.length
        let ws := s2.takeWhile wsB
        if ws = [] then none
        else
          firstSome (tryD12 (s2.drop ws.length)) fun day =>
            firstSome (tryOrdinal day.2) fun od =>
              some (c :: low, day.1, od.2)
    else none
  | [] => none

/-- `^([A-Z][a-z]+)\s+(\d{1,2})(?:st|nd|rd|th)?\s*-\s*([A-Z][a-z]+)\s+(\d{1,2})(?:st|nd|rd|th)?,\s*(\d{4})$`:
returns (month1, day1, month2, day2, year). -/
def matchDuration (text : List Char) :
    Option (List Char × List Char × List Char × List Char × List Char) :=
  match matchMonthDay text with
  | some (m1, d1, s1) =>
    match s1.dropWhile wsB with
    | '-' :: s2 =>
      match matchMonthDay (s2.dropWhile wsB) with
      | some (m2, d2, s3) =>
        match s3 with
        | ',' :: s4 =>
          match takeDigits 4 (s4.dropWhile wsB) with
          | some (y, rest) => if rest = [] then some (m1, d1, m2, d2, y) else none
          | none => none
        | _ => none
      | none => none
    | _ => none
  | none => none

/-- `^(?:(?:Mon|...),\s+)?([A-Z][a-z]+)(?:\s+)?(?:⌘\s+)?(\d{4})$`:
returns (month, year). -/
def matchMonthYear (text : List Char) : Option (List Char × List Char) :=
  firstSome (tryWeekday text) fun wk =>
    match wk.2 with
    | c :: s1 =>
      if upperB c then
        let low := s1.takeWhile lowerB
        if low = [] then none
        else
          let s2 := (s1.drop low.length).dropWhile wsB
          let s3 :=
            match s2 with
            | '⌘' :: t =>
              let ws := t.takeWhile wsB
              if ws = [] then s2 else t.drop ws.length
            | _ => s2
          match takeDigits 4 s3 with
          | some (y, rest) => if rest = [] then some (c :: low, y) else none
          | none => none
      else none
    | [] => none

/-- `^(?:⌘\s+)?(\d{4})$`: returns the year. -/
def matchYearOnly (text : List Char) : Option (List Char) :=
  let s :=
    match text with
    | '⌘' :: t =>
      let ws := t.takeWhile wsB
      if ws = [] then text else t.drop ws.length
    | _ => text
  match takeDigits 4 s with
  | some (y, rest) => if rest = [] then some y else none
  | none => none

/-- `parse_date`: tries the anchored patterns in source order. -/
def parse_date (text : List Char) : Option ParsedDate :=
  if startsWithL (strL "[[date:") text && endsWithL (strL "]]") text then
    some { dtype := .simple, value := text, is_processed := true }
  else
    match matchWeek text with
    | some (w, y) => some { dtype := .week, value := y ++ '-' :: 'W' :: zfill2 w }
    | none =>
    match matchWeeks text with
    | some (w1, w2, y) =>
      some { dtype := .duration,
             value := y ++ '-' :: 'W' :: zfill2 w1 ++ '/' :: 'W' :: zfill2 w2 }
    | none =>
    match matchIsoTime text with
    | some (d, t) => some { dtype := .time, value := d ++ ' ' :: t }
    | none =>
    match matchLegacy text with
    | some (month, day, year, timePart) =>
      match timePart with
      | some (hour, mn, ampm) =>
        let h := digitsToNat hour
        let adjusted :=
          if ampm = strL "PM" && decide (h < 12) then h + 12
          else if ampm = strL "AM" && decide (h = 12) then 0
          else h
        some { dtype := .time,
               value := year ++ '-' :: get_month_number month ++ '-' :: zfill2 day ++
                        ' ' :: fmt02 adjusted ++ ':' :: mn }
      | none =>
        some { dtype := .simple,
               value := year ++ '-' :: get_month_number month ++ '-' :: zfill2 day }
    | none =>
    match matchDuration text with
    | some (m1, d1, m2, d2, y) =>
      some { dtype := .duration,
             value := y ++ '-' :: get_month_number m1 ++ '-' :: zfill2 d1 ++
                      '/' :: (y ++ '-' :: get_month_number m2 ++ '-' :: zfill2 d2) }
    | none =>
    match (match matchIsoDatePrefix text with
           | some (d1, s1) =>
             (match s1 with
              | '/' :: s2 =>
                (match matchIsoDatePrefix s2 with
                 | some (d2, rest) => if rest = [] then some (d1, d2) else none
                 | none => none)
              | _ => none)
           | none => none : Option (List Char × List Char)) with
    | some (d1, d2) => some { dtype := .duration, value := d1 ++ '/' :: d2 }
    | none =>
    match (match matchIsoDatePrefix text with
           | some (d, rest) => if rest = [] then some d else none
           | none => none : Option (List Char)) with
    | some d => some { dtype := .simple, value := d }
    | none =>
    match matchMonthYear text with
    | some (m, y) => some { dtype := .simple, value := y ++ '-' :: get_month_number m }
    | none =>
    match matchYearOnly text with
    | some y => some { dtype := .simple, value := y }
    | none => none

/-- `format_tana_date`. -/
def format_tana_date (d : ParsedDate) : List Char :=
  if d.is_processed then d.value else strL "[[date:" ++ d.value ++ strL "]]"

/-! ### Regex substitution scanners

`re.sub` is modelled by a left-to-right scan that at every position tries
the pattern (ordered alternation, with the backtracking worked out per
pattern) and on a match emits the replacement and continues after the
match.  All patterns involved match at least one character, so a fuel of
`length + 1` makes the scan complete. -/

/-- `.*?\]\]` (non-greedy scan to the first `]]`; `.` does not match a
newline): returns (consumed including the `]]`, rest).  At each position
the closing `]]` is tried first; otherwise one character (not a newline)
is consumed by the non-greedy `.*?`. -/
def scanClose : List Char → Option (List Char × List Char)
  | [] => none
  | [_] => none
  | c :: d :: rest =>
    if c = ']' && d = ']' then some (strL "]]", rest)
    else if c = '\n' then none
    else
      match scanClose (d :: rest) with
      | some (m, r) => some (c :: m, r)
      | none => none

/-- `\[\[.*?\]\]`: returns (matched, rest). -/
def bracketScan (s : List Char) : Option (List Char × List Char) :=
  match s with
  | '[' :: '[' :: t =>
    match scanClose t with
    | some (m, r) => some ('[' :: '[' :: m, r)
    | none => none
  | _ => none

/-- `https?://[^\s)]+`: returns (matched, rest). -/
def tryHttp (s : List Char) : Option (List Char × List Char) :=
  let go (pre rest : List Char) : Option (List Char × List Char) :=
    let run := rest.takeWhile (fun c => !wsB c && c ≠ ')')
    if run = [] then none else some (pre ++ run, rest.drop run.length)
  if startsWithL (strL "https://") s then go (strL "https://") (s.drop 8)
  else if startsWithL (strL "http://") s then go (strL "http://") (s.drop 7)
  else none

/-- `\[([^\]]+)\]\(([^)]+)\)`: returns (text, url, rest). -/
def tryMdLink (s : List Char) : Option (List Char × List Char × List Char) :=
  match s with
  | '[' :: t =>
    let txt := t.takeWhile (· ≠ ']')
    if txt = [] then none
    else
      match t.drop txt.length with
      | ']' :: '(' :: u =>
        let url := u.takeWhile (· ≠ ')')
        if url = [] then none
        else
          match u.drop url.length with
          | ')' :: rest => some (txt, url, rest)
          | _ => none
      | _ => none
  | _ => none

/-- The protection pattern
`(?:\[\[.*?\]\]|https?://[^\s)]+|\[[^\]]+\]\([^)]+\))`: returns
(matched, rest). -/
def tryProtectAt (s : List Char) : Option (List Char × List Char) :=
  match bracketScan s with
  | some r => some r
  | none =>
    match tryHttp s with
    | some r => some r
    | none =>
      match tryMdLink s with
      | some (txt, url, rest) =>
        some ('[' :: txt ++ ']' :: '(' :: url ++ [')'], rest)
      | none => none

/-- The protecting `re.sub`: each match is replaced by
`__PROTECTED_<n>__` where `n` is the current length of the accumulator,
and the match is appended to the accumulator. -/
def protectSub : Nat → List Char → List (List Char) →
    (List Char × List (List Char))
  | _, [], acc => ([], acc)
  | 0, s, acc => (s, acc)
  | fuel + 1, c :: cs, acc =>
    match tryProtectAt (c :: cs) with
    | some (m, rest) =>
      let idx := acc.length
      let r := protectSub fuel rest (acc ++ [m])
      (strL "__PROTECTED_" ++ natDigits idx ++ strL "__" ++ r.1, r.2)
    | none =>
      let r := protectSub fuel cs acc
      (c :: r.1, r.2)

/-- `__PROTECTED_(\d+)__`: returns (index, rest). -/
def tryRestoreAt (s : List Char) : Option (Nat × List Char) :=
  if startsWithL (strL "__PROTECTED_") s then
    let t := s.drop 12
    let ds := t.takeWhile digitB
    if ds = [] then none
    else
      match t.drop ds.length with
      | '_' :: '_' :: rest => some (digitsToNat ds, rest)
      | _ => none
  else none

/-- The restoring `re.sub`: `protected_items[int(m.group(1))]` raises an
`IndexError` when the index is out of range. -/
def restoreSub (items : List (List Char)) : Nat → List Char →
    Except PyErr (List Char)
  | _, [] => .ok []
  | 0, s => .ok s
  | fuel + 1, c :: cs =>
    match tryRestoreAt (c :: cs) with
    | some (n, rest) =>
      match items.get? n with
      | some it =>
        match restoreSub items fuel rest with
        | .ok out => .ok (it ++ out)
        | .error e => .error e
      | none => .error .indexError
    | none =>
      match restoreSub items fuel cs with
      | .ok out => .ok (c :: out)
      | .error e => .error e

/-- Generic `re.sub` scan: `f` returns (replacement, rest) on a match. -/
def subScan (f : List Char → Option (List Char × List Char)) :
    Nat → List Char → List Char
  | _, [] => []
  | 0, s => s
  | fuel + 1, c :: cs =>
    match f (c :: cs) with
    | some (r, rest) => r ++ subScan f fuel rest
    | none => c :: subScan f fuel cs

/-! #### The date substitution pattern of `convert_dates` -/

/-- `\d{4}(?:-\d{2}(?:-\d{2})?)?(?:\s+\d{2}:\d{2})?` (the numeric core of
the first alternative of the date pattern): returns (matched, rest). -/
def numCore (s : List Char) : Option (List Char × List Char) :=
  match takeDigits 4 s with
  | none => none
  | some (d4, s1) =>
    let p2 : List Char × List Char :=
      match s1 with
      | '-' :: t =>
        (match takeDigits 2 t with
         | some (dd, t2) =>
           (match t2 with
            | '-' :: u =>
              (match takeDigits 2 u with
               | some (ee, u2) => ('-' :: dd ++ '-' :: ee, u2)
               | none => ('-' :: dd, t2))
            | _ => ('-' :: dd, t2))
         | none => ([], s1))
      | _ => ([], s1)
    let s2 := p2.2
    let p3 : List Char × List Char :=
      let ws := s2.takeWhile wsB
      if ws = [] then ([], s2)
      else
        match takeDigits 2 (s2.drop ws.length) with
        | some (hh, t) =>
          (match t with
           | ':' :: t1 =>
             (match takeDigits 2 t1 with
              | some (mm, t2) => (ws ++ hh ++ ':' :: mm, t2)
              | none => ([], s2))
           | _ => ([], s2))
        | none => ([], s2)
    some (d4 ++ p2.1 ++ p3.1, p3.2)

/-- `(?:\[\[.*?\]\]|NUM)` followed by the optional
`(?:\/(?:\[\[.*?\]\]|NUM))?` part: returns (matched, rest). -/
def coreWithSlash (s : List Char) : Option (List Char × List Char) :=
  match (match bracketScan s with
         | some r => some r
         | none => numCore s) with
  | none => none
  | some (m, s1) =>
    match s1 with
    | '/' :: t =>
      (match (match bracketScan t with
              | some r => some r
              | none => numCore t) with
       | some (m2, t2) => some (m ++ '/' :: m2, t2)
       | none => some (m, s1))
    | _ => some (m, s1)

/-- First alternative of the date pattern:
`(?:\[\[date:)?(?:\[\[.*?\]\]|NUM(?:\/...)?)(?:\]\])?`. -/
def tryA1 (s : List Char) : Option (List Char × List Char) :=
  let base :=
    (if startsWithL (strL "[[date:") s then
       match coreWithSlash (s.drop 7) with
       | some (m, s1) => some (strL "[[date:" ++ m, s1)
       | none => coreWithSlash s
     else coreWithSlash s)
  match base with
  | some (m, s1) =>
    (match s1 with
     | ']' :: ']' :: r => some (m ++ strL "]]", r)
     | _ => some (m, s1))
  | none => none

/-- `Week \d{1,2},\s*\d{4}` (unanchored alternative). -/
def tryA2 (s : List Char) : Option (List Char × List Char) :=
  if startsWithL (strL "Week ") s then
    firstSome (tryD12 (s.drop 5)) fun wd =>
      match wd.2 with
      | ',' :: s2 =>
        let ws := s2.takeWhile wsB
        (match takeDigits 4 (s2.drop ws.length) with
         | some (y, rest) =>
           some (strL "Week " ++ wd.1 ++ ',' :: ws ++ y, rest)
         | none => none)
      | _ => none
  else none

/-- `Weeks \d{1,2}-\d{1,2},\s*\d{4}` (unanchored alternative). -/
def tryA3 (s : List Char) : Option (List Char × List Char) :=
  if startsWithL (strL "Weeks ") s then
    firstSome (tryD12 (s.drop 6)) fun w1 =>
      match w1.2 with
      | '-' :: s2 =>
        firstSome (tryD12 s2) fun w2 =>
          match w2.2 with
          | ',' :: s4 =>
            let ws := s4.takeWhile wsB
            (match takeDigits 4 (s4.drop ws.length) with
             | some (y, rest) =>
               some (strL "Weeks " ++ w1.1 ++ '-' :: w2.1 ++ ',' :: ws ++ y, rest)
             | none => none)
          | _ => none
      | _ => none
  else none

/-- `[A-Z][a-z]+\s+(?:⌘\s+)?\d{4}` (unanchored alternative). -/
def tryA4 (s : List Char) : Option (List Char × List Char) :=
  match s with
  | c :: s1 =>
    if upperB c then
      let low := s1.takeWhile lowerB
      if low = [] then none
      else
        let s2 := s1.drop low.length
        let ws := s2.takeWhile wsB
        if ws = [] then none
        else
          let s3 := s2.drop ws.length
          let cmd : List Char × List Char :=
            match s3 with
            | '⌘' :: t =>
              let ws2 := t.takeWhile wsB
              if ws2 = [] then ([], s3) else ('⌘' :: ws2, t.drop ws2.length)
            | _ => ([], s3)
          match takeDigits 4 cmd.2 with
          | some (y, rest) => some (c :: low ++ ws ++ cmd.1 ++ y, rest)
          | none => none
    else none
  | [] => none

/-- `[A-Z][a-z]+ \d{1,2}(?:st|nd|rd|th)?` (literal single space), the
month-day prefix shared by the two long-form alternatives: returns
(matched, rest). -/
def tryMonthDayLit (s : List Char) : Option (List Char × List Char) :=
  match s with
  | c :: s1 =>
    if upperB c then
      let low := s1.takeWhile lowerB
      if low = [] then none
      else
        match s1.drop low.length with
        | ' ' :: s2 =>
          firstSome (tryD12 s2) fun day =>
            firstSome (tryOrdinal day.2) fun od =>
              some (c :: low ++ ' ' :: day.1 ++ od.1, od.2)
        | _ => none
    else none
  | [] => none

/-- `[A-Z][a-z]+ \d{1,2}(?:st|nd|rd|th)?,\s*\d{4}(?:,\s*\d{1,2}:\d{2}\s*(?:AM|PM))?`
(unanchored alternative). -/
def tryA5 (s : List Char) : Option (List Char × List Char) :=
  match tryMonthDayLit s with
  | some (m, s1) =>
    (match s1 with
     | ',' :: s2 =>
       let ws := s2.takeWhile wsB
       (match takeDigits 4 (s2.drop ws.length) with
        | some (y, s3) =>
          let base := m ++ ',' :: ws ++ y
          (match s3 with
           | ',' :: s4 =>
             let ws2 := s4.takeWhile wsB
             (firstSome (tryD12 (s4.drop ws2.length)) fun hr =>
               match hr.2 with
               | ':' :: s5 =>
                 (match takeDigits 2 s5 with
                  | some (mn, s6) =>
                    let ws3 := s6.takeWhile wsB
                    let s7 := s6.drop ws3.length
                    if startsWithL (strL "AM") s7 || startsWithL (strL "PM") s7 then
                      some (base ++ ',' :: ws2 ++ hr.1 ++ ':' :: mn ++ ws3 ++ s7.take 2,
                            s7.drop 2)
                    else none
                  | none => none)
               | _ => none)
             |>.orElse (fun _ => some (base, s3))
           | _ => some (base, s3))
        | none => none)
     | _ => none)
  | none => none

/-- `[A-Z][a-z]+ \d{1,2}(?:st|nd|rd|th)?\s*-\s*[A-Z][a-z]+ \d{1,2}(?:st|nd|rd|th)?,\s*\d{4}`
(unanchored alternative). -/
def tryA6 (s : List Char) : Option (List Char × List Char) :=
  match tryMonthDayLit s with
  | some (m1, s1) =>
    let ws1 := s1.takeWhile wsB
    (match s1.drop ws1.length with
     | '-' :: s2 =>
       let ws2 := s2.takeWhile wsB
       (match tryMonthDayLit (s2.drop ws2.length) with
        | some (m2, s3) =>
          (match s3 with
           | ',' :: s4 =>
             let ws3 := s4.takeWhile wsB
             (match takeDigits 4 (s4.drop ws3.length) with
              | some (y, rest) =>
                some (m1 ++ ws1 ++ '-' :: ws2 ++ m2 ++ ',' :: ws3 ++ y, rest)
              | none => none)
           | _ => none)
        | none => none)
     | _ => none)
  | none => none

/-- The whole date pattern of `convert_dates`, alternatives in source
order: returns (matched, rest). -/
def tryDateAt (s : List Char) : Option (List Char × List Char) :=
  match tryA1 s with
  | some r => some r
  | none =>
  match tryA2 s with
  | some r => some r
  | none =>
  match tryA3 s with
  | some r => some r
  | none =>
  match tryA4 s with
  | some r => some r
  | none =>
  match tryA5 s with
  | some r => some r
  | none => tryA6 s

/-- The replacement of the date substitution:
`format_tana_date(parse_date(m)) if parse_date(m) else m`. -/
def dateRepl (m : List Char) : List Char :=
  match parse_date m with
  | some d => format_tana_date d
  | none => m

/-- `convert_dates`: protect bracketed references / URLs / links, run the
date substitution, restore the protected spans. -/
def convert_dates (text : List Char) : Except PyErr (List Char) :=
  let p := protectSub (text.length + 1) text []
  let t2 := subScan (fun s => (tryDateAt s).map (fun r => (dateRepl r.1, r.2)))
    (p.1.length + 1) p.1
  restoreSub p.2 (t2.length + 1) t2

/-! #### `convert_fields` -/

/-- Substring test (Python `in`). -/
def hasSubstr (pat : List Char) : List Char → Bool
  | [] => startsWithL pat []
  | c :: cs => startsWithL pat (c :: cs) || hasSubstr pat cs

/-- The `\s+([^\n]+)$` part after the first colon: returns group 3.  The
greedy `\s+` backtracks one character when everything after the colon is
whitespace. -/
def afterColon (t : List Char) : Option (List Char) :=
  let ws := t.takeWhile wsB
  if ws = [] then none
  else
    let rem := t.drop ws.length
    if rem ≠ [] then
      if rem.contains '\n' then none else some rem
    else if 2 ≤ ws.length then some (ws.drop (ws.length - 1))
    else none

/-- Whole-line match of `^(\s*[-*+]\s+)?([^:\n]+):\s+([^\n]+)$` on one
line: returns (group1, group2, group3), group1 empty when absent.  The
optional group 1 is tried first (greedy); inside it, a shorter `\s+` run
is tried when the maximal run leaves group 2 empty. -/
def fieldMatch (l : List Char) : Option (List Char × List Char × List Char) :=
  let present : Option (List Char × List Char × List Char) :=
    let ws1 := l.takeWhile wsB
    match l.drop ws1.length with
    | m :: s2 =>
      if m = '-' || m = '*' || m = '+' then
        let ws2 := s2.takeWhile wsB
        if ws2 = [] then none
        else
          let rest := s2.drop ws2.length
          let g2 := rest.takeWhile (fun c => c ≠ ':' && c ≠ '\n')
          match rest.drop g2.length with
          | ':' :: t =>
            if g2 ≠ [] then
              (afterColon t).map (fun g3 => (ws1 ++ m :: ws2, g2, g3))
            else if 2 ≤ ws2.length then
              -- backtrack the marker-side `\s+` by one character
              (afterColon t).map (fun g3 =>
                (ws1 ++ m :: ws2.take (ws2.length - 1),
                 ws2.drop (ws2.length - 1), g3))
            else none
          | _ => none
      else none
    | [] => none
  match present with
  | some r => some r
  | none =>
    let g2 := l.takeWhile (fun c => c ≠ ':' && c ≠ '\n')
    if g2 = [] then none
    else
      match l.drop g2.length with
      | ':' :: t => (afterColon t).map (fun g3 => ([], g2, g3))
      | _ => none

/-- One line of the `re.MULTILINE` field substitution. -/
def fieldLine (l : List Char) : List Char :=
  match fieldMatch l with
  | some (g1, g2, g3) =>
    if startsWithL (strL "[[") g3 then l else g1 ++ g2 ++ ':' :: ':' :: g3
  | none => l

/-- `convert_fields`: skip when the text already has a `::` or is a table
row, otherwise apply the anchored multiline field rewrite per line. -/
def convert_fields (text : List Char) : List Char :=
  if hasSubstr (strL "::") text then text
  else if text.contains '|' then text
  else joinNl ((splitNl text).map fieldLine)

/-! #### Inline formatting -/

/-- `^[-*+]\s+(?!\[[ x]\])` lookahead target. -/
def isCheckbox : List Char → Bool
  | '[' :: c :: ']' :: _ => c = ' ' || c = 'x'
  | _ => false

/-- The list-marker strip
`re.sub(r'^[-*+]\s+(?!\[[ x]\])', '', content)`: anchored at the start;
the greedy `\s+` backtracks one character in front of a checkbox, so with
a run of two or more whitespace characters only the last one survives. -/
def listMarkerStrip (content : List Char) : List Char :=
  match content with
  | m :: rest0 =>
    if m = '-' || m = '*' || m = '+' then
      let run := rest0.takeWhile wsB
      let rest := rest0.drop run.length
      if run = [] then content
      else if isCheckbox rest then
        if 2 ≤ run.length then run.drop (run.length - 1) ++ rest else content
      else rest
    else content
  | [] => content

/-- `\*\*([^*]+)\*\*` with its replacement `**\1**`. -/
def tryBold (s : List Char) : Option (List Char × List Char) :=
  match s with
  | '*' :: '*' :: t =>
    let g := t.takeWhile (· ≠ '*')
    if g = [] then none
    else
      match t.drop g.length with
      | '*' :: '*' :: rest => some ('*' :: '*' :: g ++ '*' :: '*' :: [], rest)
      | _ => none
  | _ => none

/-- `\*([^*]+)\*` with its replacement `__\1__`. -/
def tryItalic (s : List Char) : Option (List Char × List Char) :=
  match s with
  | '*' :: t =>
    let g := t.takeWhile (· ≠ '*')
    if g = [] then none
    else
      match t.drop g.length with
      | '*' :: rest => some ('_' :: '_' :: g ++ '_' :: '_' :: [], rest)
      | _ => none
  | _ => none

/-- `==([^=]+)==` with its replacement `^^\1^^`. -/
def tryHighlight (s : List Char) : Option (List Char × List Char) :=
  match s with
  | '=' :: '=' :: t =>
    let g := t.takeWhile (· ≠ '=')
    if g = [] then none
    else
      match t.drop g.length with
      | '=' :: '=' :: rest => some ('^' :: '^' :: g ++ '^' :: '^' :: [], rest)
      | _ => none
  | _ => none

/-- `!\[([^\]]*)\]\(([^)]+)\)` with its conditional replacement. -/
def tryImage (s : List Char) : Option (List Char × List Char) :=
  match s with
  | '!' :: '[' :: t =>
    let alt := t.takeWhile (· ≠ ']')
    (match t.drop alt.length with
     | ']' :: '(' :: u =>
       let url := u.takeWhile (· ≠ ')')
       if url = [] then none
       else
         (match u.drop url.length with
          | ')' :: rest =>
            if alt = [] then some (strL "!Image " ++ url, rest)
            else some (alt ++ ':' :: ':' :: '!' :: alt ++ ' ' :: url, rest)
          | _ => none)
     | _ => none)
  | _ => none

/-- `\[([^\]]+)\]\(([^)]+)\)` with its replacement `\1 \2`. -/
def tryLinkRepl (s : List Char) : Option (List Char × List Char) :=
  (tryMdLink s).map (fun r => (r.1 ++ ' ' :: r.2.1, r.2.2))

/-- `\(([^)]+)\)` with the tag replacement. -/
def tryTag (s : List Char) : Option (List Char × List Char) :=
  match s with
  | '(' :: t =>
    let g := t.takeWhile (· ≠ ')')
    if g = [] then none
    else
      match t.drop g.length with
      | ')' :: rest =>
        if g.contains ' ' then some ('#' :: '[' :: '[' :: g ++ ']' :: ']' :: [], rest)
        else if !startsWithL (strL "[[") g then some ('#' :: g, rest)
        else some ('(' :: g ++ [')'], rest)
      | _ => none
  | _ => none

/-- `process_inline_formatting`: protect, then bold, italic, highlight,
images, links, tags, then restore. -/
def process_inline_formatting (text : List Char) : Except PyErr (List Char) :=
  let p := protectSub (text.length + 1) text []
  let t1 := subScan tryBold (p.1.length + 1) p.1
  let t2 := subScan tryItalic (t1.length + 1) t1
  let t3 := subScan tryHighlight (t2.length + 1) t2
  let t4 := subScan tryImage (t3.length + 1) t3
  let t5 := subScan tryLinkRepl (t4.length + 1) t4
  let t6 := subScan tryTag (t5.length + 1) t5
  restoreSub p.2 (t6.length + 1) t6

/-! ### The emitter (`convert_to_tana`) and chunking -/

/-- The emit regex for headers, `^(#{1,6})\s+(.+)$`: returns group 2.
When everything after the `#` run is whitespace the greedy `\s+`
backtracks one character (then group 2 is that final whitespace
character). -/
def headerMatch (content : List Char) : Option (List Char) :=
  let hs := content.takeWhile (· = '#')
  let rest1 := content.drop hs.length
  let ws := rest1.takeWhile wsB
  let rest := rest1.drop ws.length
  if hs.length < 1 || 6 < hs.length || ws.length < 1 then none
  else if rest ≠ [] then
    if rest.contains '\n' then none else some rest
  else if 2 ≤ ws.length then some (ws.drop (ws.length - 1))
  else none

/-- Content processing for a non-header line (`convert_to_tana` lines
328-338): strip the list marker, convert fields, convert dates, process
inline formatting. -/
def processTextContent (content : List Char) : Except PyErr (List Char) :=
  match convert_dates (convert_fields (listMarkerStrip content)) with
  | .error e => .error e
  | .ok c => process_inline_formatting c

/-- The output loop of `convert_to_tana` (everything after the header
token): produces the list of appended node strings. -/
def emitLoop (all : List LineRec) : List LineRec → Bool → List (List Char) →
    Except PyErr (List (List Char))
  | [], _, _ => .ok []
  | ln :: rest, inCode, codeLines =>
    let content := pyStrip ln.content
    if content = [] then emitLoop all rest inCode codeLines
    else
      let ind := indentChars (depthOf all ln.parent)
      if ln.is_code_block || inCode then
        if !inCode then emitLoop all rest true [ln.raw]
        else if ln.is_code_block then
          match emitLoop all rest false [] with
          | .error e => .error e
          | .ok ns =>
            .ok ((ind ++ strL "- " ++ process_code_block (codeLines ++ [ln.raw])) :: ns)
        else emitLoop all rest inCode (codeLines ++ [ln.raw])
      else
        let pc : Except PyErr (List Char) :=
          if ln.is_header then
            .ok (match headerMatch content with
                 | some g2 => strL "!! " ++ g2
                 | none => content)
          else processTextContent content
        match pc with
        | .error e => .error e
        | .ok c =>
          match emitLoop all rest inCode codeLines with
          | .error e => .error e
          | .ok ns => .ok ((ind ++ strL "- " ++ c) :: ns)

/-- `convert_to_tana`. -/
def convert_to_tana (input : List Char) : Except PyErr (List Char) :=
  if input = [] then .ok (strL "No text selected.")
  else
    match build_hierarchy ((splitNl input).map parse_line) with
    | .error e => .error e
    | .ok hls =>
      match emitLoop hls hls false [] with
      | .error e => .error e
      | .ok ns => .ok (joinNl (strL "%%tana%%" :: ns))

/-- The chunk-assembly loop of `chunk_content`; `cur` is
`current_chunk` as a list of lines (joined on emission), `sz` is
`current_size`. -/
def chunkLoop (m : Nat) : List (List Char) → List (List Char) → Nat →
    List (List (List Char))
  | [], cur, _ => if 1 < cur.length then [cur] else []
  | l :: rest, cur, sz =>
    if decide (m < sz + (l.length + 1)) && decide (1 < cur.length) then
      cur :: chunkLoop m rest [strL "%%tana%%", l] (9 + (l.length + 1))
    else
      chunkLoop m rest (cur ++ [l]) (sz + (l.length + 1))

/-- `chunk_content` (the `max_chunk_size` parameter defaults to 90000 in
Python; here it is always explicit). -/
def chunk_content (content : List Char) (maxCS : Nat) : List (List Char) :=
  if content.length ≤ maxCS then [content]
  else
    let lines0 := splitNl content
    let lines :=
      if lines0.head? = some (strL "%%tana%%") then lines0.drop 1 else lines0
    (chunkLoop maxCS lines [strL "%%tana%%"] 9).map joinNl

/-! ## Basic lemmas about the string helpers -/

theorem joinNl_cons (l : List Char) (ls : List (List Char)) (h : ls ≠ []) :
    joinNl (l :: ls) = l ++ '\n' :: joinNl ls := by
  cases ls with
  | nil => exact absurd rfl h
  | cons a as => rfl

theorem splitNl_ne_nil (s : List Char) : splitNl s ≠ [] := by
  induction s with
  | nil => simp [splitNl]
  | cons c cs ih =>
    simp only [splitNl]
    split
    · simp
    · cases h : splitNl cs with
      | nil => exact absurd h ih
      | cons a as => simp [h]

theorem splitNl_no_nl (s : List Char) (h : '\n' ∉ s) : splitNl s = [s] := by
  induction s with
  | nil => rfl
  | cons c cs ih =>
    simp only [List.mem_cons, not_or] at h
    simp only [splitNl]
    rw [if_neg (fun hc => h.1 hc.symm), ih h.2]

theorem splitNl_append (a b : List Char) (h : '\n' ∉ a) :
    splitNl (a ++ '\n' :: b) = a :: splitNl b := by
  induction a with
  | nil => simp [splitNl]
  | cons c cs ih =>
    simp only [List.mem_cons, not_or] at h
    simp only [List.cons_append, splitNl]
    rw [if_neg (fun hc => h.1 hc.symm)]
    simp only [List.append_eq, ih h.2]

theorem mem_splitNl_no_nl (s l : List Char) (h : l ∈ splitNl s) : '\n' ∉ l := by
  induction s generalizing l with
  | nil =>
    simp only [splitNl, List.mem_singleton] at h
    simp [h]
  | cons c cs ih =>
    simp only [splitNl] at h
    by_cases hc : c = '\n'
    · rw [if_pos hc] at h
      rcases List.mem_cons.mp h with h1 | h1
      · simp [h1]
      · exact ih l h1
    · rw [if_neg hc] at h
      cases hsp : splitNl cs with
      | nil => exact absurd hsp (splitNl_ne_nil cs)
      | cons a as =>
        rw [hsp] at h
        rcases List.mem_cons.mp h with h1 | h1
        · subst h1
          intro hm
          rcases List.mem_cons.mp hm with h2 | h2
          · exact hc h2.symm
          · have := ih a (by simp [hsp])
            exact this h2
        · exact ih l (by simp [hsp, h1])

theorem joinNl_splitNl (s : List Char) : joinNl (splitNl s) = s := by
  induction s with
  | nil => rfl
  | cons c cs ih =>
    simp only [splitNl]
    by_cases hc : c = '\n'
    · rw [if_pos hc, joinNl_cons _ _ (splitNl_ne_nil cs), ih, hc]
      rfl
    · rw [if_neg hc]
      cases hsp : splitNl cs with
      | nil => exact absurd hsp (splitNl_ne_nil cs)
      | cons a as =>
        rw [hsp] at ih
        cases as with
        | nil => simpa [joinNl] using congrArg (c :: ·) ih
        | cons b bs =>
          rw [joinNl_cons _ _ (by simp)] at ih ⊢
          simpa using congrArg (c :: ·) ih

theorem splitNl_joinNl (ls : List (List Char)) (h : ∀ l ∈ ls, '\n' ∉ l)
    (hne : ls ≠ []) : splitNl (joinNl ls) = ls := by
  induction ls with
  | nil => exact absurd rfl hne
  | cons a as ih =>
    cases as with
    | nil => simpa [joinNl] using splitNl_no_nl a (h a (by simp))
    | cons b bs =>
      rw [joinNl_cons _ _ (by simp),
        splitNl_append _ _ (h a (by simp)),
        ih (fun l hl => h l (by simp [hl])) (by simp)]

/-! Lemmas about `pyRstrip` / `pyStrip`. -/

theorem pyRstrip_nil : pyRstrip [] = [] := rfl

theorem pyRstrip_cons (c : Char) (cs : List Char) :
    pyRstrip (c :: cs) =
      if pyRstrip cs = [] then (if wsB c then [] else [c])
      else c :: pyRstrip cs := by
  simp only [pyRstrip, List.reverse_cons, List.dropWhile_append]
  by_cases h : (cs.reverse.dropWhile wsB) = []
  · simp [h, List.dropWhile_cons]
    split <;> simp
  · have : (cs.reverse.dropWhile wsB).isEmpty = false := by
      simpa [List.isEmpty_iff] using h
    simp [this, List.isEmpty_iff, h]

theorem pyRstrip_eq_nil_iff (l : List Char) :
    pyRstrip l = [] ↔ ∀ c ∈ l, wsB c = true := by
  simp [pyRstrip, List.dropWhile_eq_nil_iff]

theorem pyRstrip_cons_of_head (c : Char) (cs : List Char) (h : wsB c = false) :
    pyRstrip (c :: cs) = c :: pyRstrip cs := by
  rw [pyRstrip_cons]
  split
  · next h2 => simp [h, h2]
  · rfl

theorem pyRstrip_of_lastNotWs (l : List Char) (h : lastNotWs l = true) :
    pyRstrip l = l := by
  induction l with
  | nil => rfl
  | cons c cs ih =>
    cases cs with
    | nil =>
      simp only [lastNotWs, List.getLast?_singleton, Bool.not_eq_true'] at h
      simp [pyRstrip_cons, pyRstrip_nil, h]
    | cons b bs =>
      have hh : lastNotWs (b :: bs) = true := by
        simpa [lastNotWs, List.getLast?_cons_cons] using h
      rw [pyRstrip_cons, ih hh]
      simp

theorem pyRstrip_head (l : List Char) (c : Char) (h1 : l.head? = some c)
    (h2 : wsB c = false) : ∃ r, pyRstrip l = c :: r := by
  cases l with
  | nil => simp at h1
  | cons a as =>
    simp only [List.head?_cons, Option.some.injEq] at h1
    cases h1
    exact ⟨pyRstrip as, pyRstrip_cons_of_head _ as h2⟩

theorem dropWhile_head_not (p : Char → Bool) (l : List Char) :
    ∀ c, (l.dropWhile p).head? = some c → p c = false := by
  induction l with
  | nil => intro c h; simp at h
  | cons a as ih =>
    intro c h
    rw [List.dropWhile_cons] at h
    by_cases hp : p a = true
    · rw [if_pos hp] at h
      exact ih c h
    · rw [if_neg hp] at h
      simp only [List.head?_cons, Option.some.injEq] at h
      subst h
      simpa using hp

theorem pyRstrip_lastNotWs (l : List Char) (h : pyRstrip l ≠ []) :
    lastNotWs (pyRstrip l) = true := by
  simp only [pyRstrip, lastNotWs]
  cases hh : ((l.reverse.dropWhile wsB).reverse).getLast? with
  | none =>
    exfalso
    apply h
    simp only [pyRstrip]
    rcases List.getLast?_eq_none_iff.mp hh with h2
    exact h2
  | some c =>
    rw [List.getLast?_reverse] at hh
    simp [dropWhile_head_not wsB l.reverse c hh]

theorem pyRstrip_idem (l : List Char) : pyRstrip (pyRstrip l) = pyRstrip l := by
  by_cases h : pyRstrip l = []
  · rw [h]; rfl
  · exact pyRstrip_of_lastNotWs _ (pyRstrip_lastNotWs l h)

theorem dropWhile_of_headNotWs (l : List Char) (h : headNotWs l = true) :
    l.dropWhile wsB = l := by
  cases l with
  | nil => rfl
  | cons c cs =>
    simp only [headNotWs, List.head?_cons, Bool.not_eq_true'] at h
    simp [List.dropWhile_cons, h]

theorem takeWhile_nil_of_headNotWs (l : List Char) (h : headNotWs l = true) :
    l.takeWhile wsB = [] := by
  cases l with
  | nil => rfl
  | cons c cs =>
    simp only [headNotWs, List.head?_cons, Bool.not_eq_true'] at h
    simp [List.takeWhile_cons, h]

theorem pyStrip_of_headNotWs (l : List Char) (h : headNotWs l = true) :
    pyStrip l = pyRstrip l := by
  rw [pyStrip, dropWhile_of_headNotWs l h]

theorem pyStrip_trimmed (l : List Char) (h1 : headNotWs l = true)
    (h2 : lastNotWs l = true) : pyStrip l = l := by
  rw [pyStrip_of_headNotWs l h1, pyRstrip_of_lastNotWs l h2]

theorem pyStrip_all_ws (l : List Char) (h : ∀ c ∈ l, wsB c = true) :
    pyStrip l = [] := by
  rw [pyStrip, List.dropWhile_eq_nil_iff.mpr h]
  rfl

theorem mem_splitNl_mem (s l : List Char) (h : l ∈ splitNl s) :
    ∀ c ∈ l, c ∈ s := by
  induction s generalizing l with
  | nil =>
    simp only [splitNl, List.mem_singleton] at h
    simp [h]
  | cons a as ih =>
    intro c hc
    simp only [splitNl] at h
    by_cases ha : a = '\n'
    · rw [if_pos ha] at h
      rcases List.mem_cons.mp h with h1 | h1
      · subst h1; simp at hc
      · exact List.mem_cons_of_mem a (ih l h1 c hc)
    · rw [if_neg ha] at h
      cases hsp : splitNl as with
      | nil => exact absurd hsp (splitNl_ne_nil as)
      | cons b bs =>
        rw [hsp] at h
        rcases List.mem_cons.mp h with h1 | h1
        · subst h1
          rcases List.mem_cons.mp hc with h2 | h2
          · simp [h2]
          · exact List.mem_cons_of_mem a (ih b (by simp [hsp]) c h2)
        · exact List.mem_cons_of_mem a (ih l (by simp [hsp, h1]) c hc)

/-! Lemmas about `parse_line`. -/

theorem parse_line_headNotWs (l : List Char) (h : headNotWs l = true) :
    parse_line l =
      { content := pyRstrip l, indent := 0, raw := l,
        is_header := startsWithL (strL "#") (pyRstrip l),
        is_code_block := startsWithL (strL "```") (pyRstrip l),
        parent := none } := by
  simp [parse_line, takeWhile_nil_of_headNotWs l h]

theorem parse_line_all_ws (l : List Char) (h : ∀ c ∈ l, wsB c = true) :
    (parse_line l).content = [] := by
  simp [parse_line, List.takeWhile_eq_self_iff.mpr h, pyRstrip_nil]

theorem startsWith_hash_false (c : Char) (cs : List Char) (h : c ≠ '#') :
    startsWithL (strL "#") (c :: cs) = false := by
  simp [startsWithL, strL, h]

theorem startsWith_ticks_false (c : Char) (cs : List Char) (h : c ≠ '`') :
    startsWithL (strL "```") (c :: cs) = false := by
  simp [startsWithL, strL, List.take_cons, h]

/-! ## Skipping lemmas (blank lines) and the whitespace-only input -/

theorem buildAux_all_blank (ls : List LineRec)
    (h : ∀ ln ∈ ls, pyStrip ln.content = []) :
    ∀ i lastH stack, buildAux ls i lastH stack = .ok ls := by
  induction ls with
  | nil => intro i lh st; rfl
  | cons ln rest ih =>
    intro i lh st
    have h1 : pyStrip ln.content = [] := h ln (by simp)
    simp only [buildAux, h1, if_pos]
    rw [ih (fun l hl => h l (by simp [hl]))]

theorem emitLoop_all_blank (all : List LineRec) (ls : List LineRec)
    (h : ∀ ln ∈ ls, pyStrip ln.content = []) :
    ∀ inCode codeLines, emitLoop all ls inCode codeLines = .ok [] := by
  induction ls with
  | nil => intro a b; rfl
  | cons ln rest ih =>
    intro a b
    have h1 : pyStrip ln.content = [] := h ln (by simp)
    simp only [emitLoop, h1, if_pos]
    exact ih (fun l hl => h l (by simp [hl])) a b

/-- Claim C10: a non-empty input consisting solely of whitespace
characters (newlines included) converts to exactly the header line
`%%tana%%` with no node lines after it, and in particular does not
produce the `No text selected.` fallback (which only the empty string
triggers). -/
theorem c10_whitespace_only (input : List Char) (h1 : input ≠ [])
    (h2 : ∀ c ∈ input, wsB c = true) :
    convert_to_tana input = .ok (strL "%%tana%%") ∧
    convert_to_tana input ≠ .ok (strL "No text selected.") := by
  have hlines : ∀ ln ∈ (splitNl input).map parse_line, pyStrip ln.content = [] := by
    intro ln hln
    rcases List.mem_map.mp hln with ⟨l, hl, rfl⟩
    have : (parse_line l).content = [] :=
      parse_line_all_ws l (fun c hc => h2 c (mem_splitNl_mem input l hl c hc))
    rw [this]
    rfl
  have hbuild : build_hierarchy ((splitNl input).map parse_line) =
      .ok ((splitNl input).map parse_line) := by
    rw [build_hierarchy]
    split
    · rfl
    · exact buildAux_all_blank _ hlines 0 none [-1]
  have hmain : convert_to_tana input = .ok (strL "%%tana%%") := by
    rw [convert_to_tana, if_neg h1]
    simp only [hbuild, emitLoop_all_blank _ _ hlines false []]
    rfl
  refine ⟨hmain, ?_⟩
  rw [hmain]
  intro hcontra
  exact absurd (Except.ok.inj hcontra) (by decide)

/-- Claim C10 witness at the concrete input `" \n"`. -/
theorem c10_witness :
    convert_to_tana (strL " \n") = .ok (strL "%%tana%%") ∧
    convert_to_tana (strL " \n") ≠ .ok (strL "No text selected.") :=
  c10_whitespace_only (strL " \n") (by decide) (by decide)

/-! ## Node shape of the emitted output (claim C5) -/

theorem emitLoop_form (all : List LineRec) :
    ∀ ls inCode codeLines ns, emitLoop all ls inCode codeLines = .ok ns →
      ∀ n ∈ ns, ∃ d r, n = indentChars d ++ strL "- " ++ r := by
  intro ls
  induction ls with
  | nil =>
    intro a b ns h n hn
    simp only [emitLoop] at h
    cases h
    simp at hn
  | cons ln rest ih =>
    intro inCode codeLines ns h n hn
    simp only [emitLoop] at h
    split at h
    · exact ih _ _ _ h n hn
    · split at h
      · split at h
        · exact ih _ _ _ h n hn
        · split at h
          · split at h
            · exact absurd h (by simp)
            · cases h
              rcases List.mem_cons.mp hn with h1 | h1
              · exact ⟨_, _, h1⟩
              · next heq => exact ih _ _ _ heq n h1
          · exact ih _ _ _ h n hn
      · split at h
        · exact absurd h (by simp)
        · split at h
          · exact absurd h (by simp)
          · cases h
            rcases List.mem_cons.mp hn with h1 | h1
            · exact ⟨_, _, h1⟩
            · next heq => exact ih _ _ _ heq n h1

/-- Claim C5 (amended): on every non-empty input on which the conversion
succeeds, the output is the header line `%%tana%%` followed by the emitted
nodes joined with newlines, and every emitted node is of the form
`indent ++ "- " ++ content` with the indent a whole number of two-space
units.  (A code-block node may contain embedded newlines, so as raw text
lines its continuation lines do not repeat the dash prefix; the empty
input instead yields the fallback message, and an input that trips the
hierarchy-builder indexing bug yields no output at all.) -/
theorem c5_amended (input out : List Char) (h1 : input ≠ [])
    (h2 : convert_to_tana input = .ok out) :
    ∃ ns, out = joinNl (strL "%%tana%%" :: ns) ∧
      ∀ n ∈ ns, ∃ d r, n = indentChars d ++ strL "- " ++ r := by
  rw [convert_to_tana, if_neg h1] at h2
  split at h2
  · exact absurd h2 (by simp)
  · split at h2
    · exact absurd h2 (by simp)
    · next ns heq =>
      cases h2
      exact ⟨ns, rfl, emitLoop_form _ _ _ _ _ heq⟩

/-- Claim C5 witness: the theorem applied at the input `"hello"`. -/
theorem c5_witness :
    ∃ ns, strL "%%tana%%\n- hello" = joinNl (strL "%%tana%%" :: ns) ∧
      ∀ n ∈ ns, ∃ d r, n = indentChars d ++ strL "- " ++ r :=
  c5_amended (strL "hello") (strL "%%tana%%\n- hello") (by decide) (by decide)

/-- Claim C5 counterexample: the claim as stated fails on the empty
input, whose output's first line is the fallback message
`No text selected.`, not the header token. -/
theorem c5_counterexample :
    convert_to_tana (strL "") = .ok (strL "No text selected.") ∧
    strL "No text selected." ≠ strL "%%tana%%" ∧
    (splitNl (strL "No text selected.")).head? ≠ some (strL "%%tana%%") := by
  refine ⟨by decide, by decide, by decide⟩

/-! ## Concrete evaluations for claims C1-C4, C6, C7, C9 -/

/-- Claim C3 (code-bug evaluation): on an input whose first non-blank
line is indented by four spaces with no preceding heading,
`convert_to_tana` does not return a string: `build_hierarchy` evaluates
`last_parent_at_level[effective_indent - 1]` with `effective_indent = 2`
on the one-element stack `[-1]` and raises `IndexError`, instead of
emitting the line as a plain text node. -/
theorem c3_code_bug_eval :
    convert_to_tana (strL "    x") = .error .indexError := by decide

/-- Claim C7 (code-bug evaluation): the empty input yields the fixed
fallback string with no exception, as the claim says; but the sentinel is
not the only externally observable failure of the core: a six-space
indented first line makes the conversion raise an index error. -/
theorem c7_code_bug_eval :
    convert_to_tana (strL "") = .ok (strL "No text selected.") ∧
    convert_to_tana (strL "      y") = .error .indexError :=
  ⟨by decide, by decide⟩

/-- Claim C1 counterexample: a level-2 heading is rendered at nesting
depth 0 (headers always get parent `-1`), not at depth 1 = level − 1 as
the claim states. -/
theorem c1_counterexample :
    convert_to_tana (strL "## A") = .ok (strL "%%tana%%\n- !! A") ∧
    strL "%%tana%%\n- !! A" ≠ strL "%%tana%%\n  - !! A" :=
  ⟨by decide, by decide⟩

/-- Claim C2 counterexample: with a paragraph between the heading and the
zero-indent list item, the item is parented to the heading, so it is
emitted at the same depth as the paragraph, not one level deeper. -/
theorem c2_counterexample :
    convert_to_tana (strL "# H\npara\n- item") =
      .ok (strL "%%tana%%\n- !! H\n  - para\n  - item") ∧
    strL "%%tana%%\n- !! H\n  - para\n  - item" ≠
      strL "%%tana%%\n- !! H\n  - para\n    - item" :=
  ⟨by decide, by decide⟩

/-- Claim C4 counterexample: the single node emitted for a fenced block
carries the interior lines stripped of surrounding whitespace
(`process_code_block` joins `line.strip()`), not the raw interior
lines. -/
theorem c4_counterexample :
    convert_to_tana (strL "```\na \n```") = .ok (strL "%%tana%%\n  - a") ∧
    strL "%%tana%%\n  - a" ≠ strL "%%tana%%\n  - a " :=
  ⟨by decide, by decide⟩

/-- Claim C6 counterexample: with budget 15, the content
`%%tana%%\nabcdefghij` (length 19) is returned as a single chunk of
length 19 > 15 although its only non-header line has length 10 ≤ 15 — the
chunk exceeds the budget without any single line exceeding it, because
the re-added header line is not accounted against the claim's bound. -/
theorem c6_counterexample :
    chunk_content (strL "%%tana%%\nabcdefghij") 15 =
      [strL "%%tana%%\nabcdefghij"] ∧
    15 < (strL "%%tana%%\nabcdefghij").length ∧
    ∀ l ∈ (splitNl (strL "%%tana%%\nabcdefghij")).drop 1, l.length ≤ 15 :=
  ⟨by decide, by decide, by decide⟩

/-- Claim C9 counterexample: the hour 13 with a PM marker is recognized
by `parse_date` but left unchanged (13:00), whereas the claim demands
adding 12 (25:00) for every non-12 hour with PM. -/
theorem c9_counterexample :
    parse_date (strL "March 5th, 2024, 13:00 PM") =
      some ⟨.time, strL "2024-03-05 13:00", false⟩ ∧
    strL "2024-03-05 13:00" ≠ strL "2024-03-05 25:00" :=
  ⟨by decide, by decide⟩

/-- Claim C9 (amended): for every hour `h` (0-99, the range `\d{1,2}`
recognizes) in the long-form date `March 5th, 2024, h:00 AM/PM`,
`parse_date` emits hour `h+12` for PM when `h < 12` and leaves PM hours
of 12 or more unchanged, and emits 0 for 12 AM and leaves other AM hours
unchanged; in particular `March 5th, 2024, 3:00 PM` yields the canonical
value `2024-03-05 15:00`. -/
theorem c9_amended :
    (∀ h : Nat, h < 100 →
      parse_date (strL "March 5th, 2024, " ++ natDigits h ++ strL ":00 PM") =
        some ⟨.time, strL "2024-03-05 " ++ fmt02 (if h < 12 then h + 12 else h)
                ++ strL ":00", false⟩) ∧
    (∀ h : Nat, h < 100 →
      parse_date (strL "March 5th, 2024, " ++ natDigits h ++ strL ":00 AM") =
        some ⟨.time, strL "2024-03-05 " ++ fmt02 (if h = 12 then 0 else h)
                ++ strL ":00", false⟩) ∧
    parse_date (strL "March 5th, 2024, 3:00 PM") =
      some ⟨.time, strL "2024-03-05 15:00", false⟩ := by
  refine ⟨by decide, by decide, by decide⟩

/-- Claim C9 witness: the amended theorem applied at hour 3 with PM. -/
theorem c9_witness :
    parse_date (strL "March 5th, 2024, " ++ natDigits 3 ++ strL ":00 PM") =
      some ⟨.time, strL "2024-03-05 " ++ fmt02 (if 3 < 12 then 3 + 12 else 3)
              ++ strL ":00", false⟩ :=
  c9_amended.1 3 (by decide)

/-! ## Chunking (claim C6) -/

theorem noNl_of_not_mem (l : List Char) (h : '\n' ∉ l) : noNl l = true := by
  simp [noNl, h]

theorem startsWith_append_self (p x : List Char) :
    startsWithL p (p ++ x) = true := by
  simp [startsWithL, List.take_left]

theorem drop_one_append (cur : List (List Char)) (l : List Char)
    (h : cur ≠ []) : (cur ++ [l]).drop 1 = cur.drop 1 ++ [l] := by
  cases cur with
  | nil => exact absurd rfl h
  | cons a as => simp

theorem joinNl_length_cons (a : List Char) (tl : List (List Char)) :
    (joinNl (a :: tl)).length =
      a.length + (tl.map (fun l => l.length + 1)).sum := by
  induction tl generalizing a with
  | nil => simp [joinNl]
  | cons b bs ih =>
    rw [joinNl_cons _ _ (by simp)]
    simp only [List.length_append, List.length_cons, ih b, List.map_cons,
      List.sum_cons]
    omega

theorem startsWith_joinNl_head (p : List Char) (lc : List (List Char))
    (h : lc.head? = some p) : startsWithL p (joinNl lc) = true := by
  cases lc with
  | nil => simp at h
  | cons a tl =>
    simp only [List.head?_cons, Option.some.injEq] at h
    subst h
    cases tl with
    | nil => simp [joinNl, startsWithL, List.take_length]
    | cons b bs =>
      rw [joinNl_cons _ _ (by simp)]
      exact startsWith_append_self _ _

theorem chunkLoop_tails (m : Nat) :
    ∀ ls cur sz, cur ≠ [] →
      ((chunkLoop m ls cur sz).map (fun ch => ch.drop 1)).flatten =
        cur.drop 1 ++ ls := by
  intro ls
  induction ls with
  | nil =>
    intro cur sz hne
    simp only [chunkLoop]
    split
    · simp
    · next hlen =>
      have : cur.drop 1 = [] := by
        rw [List.drop_eq_nil_iff]
        omega
      simp [this]
  | cons l rest ih =>
    intro cur sz hne
    simp only [chunkLoop]
    split
    · simp only [List.map_cons, List.flatten_cons]
      rw [ih [strL "%%tana%%", l] _ (by simp)]
      simp
    · rw [ih (cur ++ [l]) _ (by simp), drop_one_append cur l hne,
        List.append_assoc]
      simp

theorem chunkLoop_head (m : Nat) :
    ∀ ls cur sz, cur.head? = some (strL "%%tana%%") →
      ∀ ch ∈ chunkLoop m ls cur sz, ch.head? = some (strL "%%tana%%") := by
  intro ls
  induction ls with
  | nil =>
    intro cur sz hh ch hch
    simp only [chunkLoop] at hch
    split at hch
    · simp only [List.mem_singleton] at hch
      subst hch; exact hh
    · simp at hch
  | cons l rest ih =>
    intro cur sz hh ch hch
    simp only [chunkLoop] at hch
    split at hch
    · rcases List.mem_cons.mp hch with h1 | h1
      · subst h1; exact hh
      · exact ih _ _ (by simp) ch h1
    · refine ih (cur ++ [l]) _ ?_ ch hch
      cases cur with
      | nil => simp at hh
      | cons a as => simpa using hh

theorem chunkLoop_noNl (m : Nat) :
    ∀ ls cur sz, (∀ l ∈ ls, noNl l = true) → (∀ l ∈ cur, noNl l = true) →
      ∀ ch ∈ chunkLoop m ls cur sz, ∀ l ∈ ch, noNl l = true := by
  intro ls
  induction ls with
  | nil =>
    intro cur sz _ hcur ch hch l hl
    simp only [chunkLoop] at hch
    split at hch
    · simp only [List.mem_singleton] at hch
      subst hch; exact hcur l hl
    · simp at hch
  | cons a rest ih =>
    intro cur sz hls hcur ch hch l hl
    have hna : noNl a = true := hls a (by simp)
    have hrest : ∀ x ∈ rest, noNl x = true := fun x hx => hls x (by simp [hx])
    simp only [chunkLoop] at hch
    split at hch
    · rcases List.mem_cons.mp hch with h1 | h1
      · subst h1; exact hcur l hl
      · refine ih _ _ hrest ?_ ch h1 l hl
        intro x hx
        rcases List.mem_cons.mp hx with h2 | h2
        · subst h2; decide
        · simp only [List.mem_singleton] at h2
          subst h2; exact hna
    · refine ih (cur ++ [a]) _ hrest ?_ ch hch l hl
      intro x hx
      rcases List.mem_append.mp hx with h2 | h2
      · exact hcur x h2
      · simp only [List.mem_singleton] at h2
        subst h2; exact hna

theorem chunkLoop_size (m : Nat) :
    ∀ ls cur sz, cur.head? = some (strL "%%tana%%") →
      sz = 9 + ((cur.drop 1).map (fun l => l.length + 1)).sum →
      (cur.drop 1 = [] ∨ sz ≤ m + 1 ∨
        ∃ l, cur.drop 1 = [l] ∧ m < 10 + l.length) →
      ∀ ch ∈ chunkLoop m ls cur sz,
        (joinNl ch).length ≤ m ∨
          ∃ l, ch = [strL "%%tana%%", l] ∧ m < 10 + l.length := by
  intro ls
  induction ls with
  | nil =>
    intro cur sz hh hsz hinv ch hch
    simp only [chunkLoop] at hch
    split at hch
    · next hlen =>
      simp only [List.mem_singleton] at hch
      subst hch
      cases ch with
      | nil => simp at hh
      | cons a tl =>
        simp only [List.head?_cons, Option.some.injEq] at hh
        subst hh
        simp only [List.drop_one, List.tail_cons] at hsz hinv
        rcases hinv with h1 | h1 | h1
        · subst h1; simp at hlen
        · left
          rw [joinNl_length_cons]
          have : (strL "%%tana%%").length = 8 := by decide
          omega
        · rcases h1 with ⟨l, hl, hml⟩
          right
          exact ⟨l, by rw [hl], hml⟩
    · simp at hch
  | cons a rest ih =>
    intro cur sz hh hsz hinv ch hch
    simp only [chunkLoop] at hch
    split at hch
    · next hcond =>
      simp only [Bool.and_eq_true, decide_eq_true_eq] at hcond
      rcases List.mem_cons.mp hch with h1 | h1
      · subst h1
        cases ch with
        | nil => simp at hh
        | cons x tl =>
          simp only [List.head?_cons, Option.some.injEq] at hh
          subst hh
          simp only [List.drop_one, List.tail_cons] at hsz hinv
          rcases hinv with h2 | h2 | h2
          · subst h2; simp at hcond
          · left
            rw [joinNl_length_cons]
            have : (strL "%%tana%%").length = 8 := by decide
            omega
          · rcases h2 with ⟨l, hl, hml⟩
            right
            exact ⟨l, by rw [hl], hml⟩
      · refine ih _ _ (by simp) (by simp) ?_ ch h1
        by_cases hbig : 9 + (a.length + 1) ≤ m + 1
        · right; left
          simpa using hbig
        · right; right
          exact ⟨a, by simp, by omega⟩
    · next hcond =>
      have hnot : ¬ (m < sz + (a.length + 1)) ∨ ¬ (1 < cur.length) := by
        by_contra hcc
        push_neg at hcc
        simp [hcc.1, hcc.2] at hcond
      cases cur with
      | nil => simp at hh
      | cons x tl =>
        simp only [List.head?_cons, Option.some.injEq] at hh
        subst hh
        refine ih _ _ (by simp) ?_ ?_ ch hch
        · rw [drop_one_append _ _ (by simp)]
          simp only [List.drop_one, List.tail_cons] at hsz ⊢
          simp [hsz]
          omega
        · rw [drop_one_append _ _ (by simp)]
          simp only [List.drop_one, List.tail_cons] at hsz hinv ⊢
          rcases hnot with h2 | h2
          · right; left; omega
          · have htl : tl = [] := by
              simp only [List.length_cons] at h2
              cases tl with
              | nil => rfl
              | cons u us => simp at h2
            subst htl
            simp only [List.map_nil, List.sum_nil] at hsz
            by_cases hbig : 9 + (a.length + 1) ≤ m + 1
            · right; left
              simp [hsz]
              omega
            · right; right
              exact ⟨a, by simp, by omega⟩

theorem not_mem_of_noNl (l : List Char) (h : noNl l = true) : '\n' ∉ l := by
  simpa [noNl] using h

/-- Claim C6 (amended): for a converted text whose first line is the
header token, `chunk_content` returns chunks that each start with
`%%tana%%`, splits only at line boundaries (the concatenation of the
chunks' non-header lines recovers the non-header lines of the input), and
no chunk exceeds the budget except when the 9-character re-added header
line plus a single line exceeds it — such an oversized chunk consists of
the header plus exactly that one line.  (The code measures a line against
the budget together with the header it re-adds, so a chunk can exceed the
budget by up to the header size even when no single line alone does.) -/
theorem c6_amended (content : List Char) (m : Nat) (body : List (List Char))
    (hsp : splitNl content = strL "%%tana%%" :: body) :
    (∀ ch ∈ chunk_content content m, startsWithL (strL "%%tana%%") ch = true) ∧
    ((chunk_content content m).map (fun ch => (splitNl ch).drop 1)).flatten =
      body ∧
    (∀ ch ∈ chunk_content content m,
      ch.length ≤ m ∨
        ∃ l, ch = strL "%%tana%%" ++ '\n' :: l ∧ noNl l = true ∧
          m < 10 + l.length) := by
  have hbody_noNl : ∀ l ∈ body, noNl l = true := fun l hl =>
    noNl_of_not_mem l
      (mem_splitNl_no_nl content l (by rw [hsp]; exact List.mem_cons_of_mem _ hl))
  by_cases hle : content.length ≤ m
  · have hch : chunk_content content m = [content] := by
      rw [chunk_content, if_pos hle]
    rw [hch]
    refine ⟨?_, ?_, ?_⟩
    · intro ch hch2
      rw [List.mem_singleton] at hch2
      rw [hch2]
      have hc : content = joinNl (strL "%%tana%%" :: body) := by
        rw [← hsp, joinNl_splitNl]
      rw [hc]
      exact startsWith_joinNl_head _ _ (by simp)
    · simp [hsp]
    · intro ch hch2
      rw [List.mem_singleton] at hch2
      rw [hch2]
      exact Or.inl hle
  · have hch : chunk_content content m =
        (chunkLoop m body [strL "%%tana%%"] 9).map joinNl := by
      rw [chunk_content, if_neg hle]
      simp only [hsp]
      simp
    have hhdr_noNl : ∀ x ∈ [strL "%%tana%%"], noNl x = true := by
      intro x hx
      simp only [List.mem_singleton] at hx
      subst hx; decide
    rw [hch]
    refine ⟨?_, ?_, ?_⟩
    · intro ch hchm
      rcases List.mem_map.mp hchm with ⟨lc, hlc, rfl⟩
      exact startsWith_joinNl_head _ lc (chunkLoop_head m body [strL "%%tana%%"] 9 rfl lc hlc)
    · rw [List.map_map]
      have hcongr : ∀ lc ∈ chunkLoop m body [strL "%%tana%%"] 9,
          ((fun ch => (splitNl ch).drop 1) ∘ joinNl) lc = lc.drop 1 := by
        intro lc hlc
        have hhead := chunkLoop_head m body [strL "%%tana%%"] 9 rfl lc hlc
        have hnonempty : lc ≠ [] := by
          intro hnil
          rw [hnil] at hhead
          simp at hhead
        have hnn : ∀ l ∈ lc, '\n' ∉ l := fun l hl =>
          not_mem_of_noNl l
            (chunkLoop_noNl m body _ 9 hbody_noNl hhdr_noNl lc hlc l hl)
        simp only [Function.comp]
        rw [splitNl_joinNl lc hnn hnonempty]
      rw [List.map_congr_left hcongr]
      have h2 := chunkLoop_tails m body [strL "%%tana%%"] 9 (by simp)
      rw [h2]
      simp
    · intro ch hchm
      rcases List.mem_map.mp hchm with ⟨lc, hlc, rfl⟩
      rcases chunkLoop_size m body [strL "%%tana%%"] 9 rfl (by simp)
          (Or.inl rfl) lc hlc with h1 | ⟨l, hl, hml⟩
      · exact Or.inl h1
      · right
        refine ⟨l, by rw [hl]; rfl, ?_, hml⟩
        exact chunkLoop_noNl m body _ 9 hbody_noNl hhdr_noNl lc hlc l
          (by rw [hl]; simp)

/-- Claim C6 witness: the amended theorem at content
`%%tana%%\nab\ncd` with budget 12. -/
theorem c6_witness :
    (∀ ch ∈ chunk_content (strL "%%tana%%\nab\ncd") 12,
      startsWithL (strL "%%tana%%") ch = true) ∧
    ((chunk_content (strL "%%tana%%\nab\ncd") 12).map
      (fun ch => (splitNl ch).drop 1)).flatten = [strL "ab", strL "cd"] ∧
    (∀ ch ∈ chunk_content (strL "%%tana%%\nab\ncd") 12,
      ch.length ≤ 12 ∨
        ∃ l, ch = strL "%%tana%%" ++ '\n' :: l ∧ noNl l = true ∧
          12 < 10 + l.length) :=
  c6_amended (strL "%%tana%%\nab\ncd") 12 [strL "ab", strL "cd"] (by decide)

/-! ## Date pass-through (claim C8) -/

theorem scanClose_append (w b : List Char) (h1 : ']' ∉ w) (h2 : '\n' ∉ w) :
    scanClose (w ++ ']' :: ']' :: b) = some (w ++ strL "]]", b) := by
  induction w with
  | nil => simp [scanClose]
  | cons c cs ih =>
    simp only [List.mem_cons, not_or] at h1 h2
    have hc1 : (c = ']') = False := by
      simp only [eq_iff_iff, iff_false]
      exact fun hc => h1.1 hc.symm
    have hc2 : (c = '\n') = False := by
      simp only [eq_iff_iff, iff_false]
      exact fun hc => h2.1 hc.symm
    cases hcs : cs ++ ']' :: ']' :: b with
    | nil => simp at hcs
    | cons d rest =>
      have : scanClose (c :: cs ++ ']' :: ']' :: b) =
          scanClose (c :: d :: rest) := by rw [List.cons_append, hcs]
      rw [this]
      simp only [scanClose, hc1, Bool.false_and, Bool.false_eq_true,
        if_false, hc2, if_false]
      rw [← hcs, ih (fun hm => h1.2 hm) (fun hm => h2.2 hm)]
      simp

theorem bracketScan_whole (V : List Char) (h1 : ']' ∉ V) (h2 : '\n' ∉ V) :
    bracketScan (strL "[[date:" ++ (V ++ strL "]]")) =
      some (strL "[[date:" ++ (V ++ strL "]]"), []) := by
  have hmem1 : ']' ∉ strL "date:" ++ V := by
    intro hm
    rcases List.mem_append.mp hm with h | h
    · revert h; decide
    · exact h1 h
  have hmem2 : '\n' ∉ strL "date:" ++ V := by
    intro hm
    rcases List.mem_append.mp hm with h | h
    · revert h; decide
    · exact h2 h
  have hshape : strL "[[date:" ++ (V ++ strL "]]") =
      '[' :: '[' :: ((strL "date:" ++ V) ++ ']' :: ']' :: []) := by
    simp [strL, List.append_assoc]
  rw [hshape]
  simp only [bracketScan, scanClose_append _ _ hmem1 hmem2]
  simp [strL, List.append_assoc]

theorem tryProtectAt_whole (V : List Char) (h1 : ']' ∉ V) (h2 : '\n' ∉ V) :
    tryProtectAt (strL "[[date:" ++ (V ++ strL "]]")) =
      some (strL "[[date:" ++ (V ++ strL "]]"), []) := by
  rw [tryProtectAt, bracketScan_whole V h1 h2]

theorem protectSub_one (c : Char) (cs : List Char) (fuel : Nat)
    (h : tryProtectAt (c :: cs) = some (c :: cs, [])) :
    protectSub (fuel + 1) (c :: cs) [] = (strL "__PROTECTED_0__", [c :: cs]) := by
  have hph : strL "__PROTECTED_" ++ natDigits 0 ++ strL "__" =
      strL "__PROTECTED_0__" := by decide
  simp only [protectSub, h, List.append_nil, List.length_nil]
  simp [hph]

theorem protectSub_whole (V : List Char) (h1 : ']' ∉ V) (h2 : '\n' ∉ V) :
    protectSub ((strL "[[date:" ++ (V ++ strL "]]")).length + 1)
        (strL "[[date:" ++ (V ++ strL "]]")) [] =
      (strL "__PROTECTED_0__", [strL "[[date:" ++ (V ++ strL "]]")]) := by
  have hshape : strL "[[date:" ++ (V ++ strL "]]") =
      '[' :: ('[' :: (strL "date:" ++ (V ++ strL "]]"))) := rfl
  rw [hshape, protectSub_one _ _ _ (by rw [← hshape]; exact tryProtectAt_whole V h1 h2)]

theorem restoreSub_placeholder (it : List Char) :
    restoreSub [it] ((strL "__PROTECTED_0__").length + 1)
        (strL "__PROTECTED_0__") = .ok it := by
  have hstep : restoreSub [it] ((strL "__PROTECTED_0__").length + 1)
      (strL "__PROTECTED_0__") = .ok (it ++ []) := rfl
  rw [hstep, List.append_nil]

/-- Claim C8: a text span that is already a canonical date reference
`[[date:VALUE]]` (with no `]` and no newline inside the value) passes
through `convert_dates` byte-identically: the protection pass masks it
behind `__PROTECTED_0__`, the date substitution leaves the placeholder
untouched, and the restore pass puts the original span back. -/
theorem c8_date_passthrough (V : List Char) (h1 : ']' ∉ V) (h2 : '\n' ∉ V) :
    convert_dates (strL "[[date:" ++ (V ++ strL "]]")) =
      .ok (strL "[[date:" ++ (V ++ strL "]]")) := by
  have hsub : subScan (fun s => (tryDateAt s).map (fun r => (dateRepl r.1, r.2)))
      ((strL "__PROTECTED_0__").length + 1) (strL "__PROTECTED_0__") =
      strL "__PROTECTED_0__" := by decide
  simp only [convert_dates, protectSub_whole V h1 h2, hsub]
  exact restoreSub_placeholder _

/-- Claim C8 witness: the pass-through at the concrete value
`2024-05-01`. -/
theorem c8_witness :
    convert_dates (strL "[[date:" ++ (strL "2024-05-01" ++ strL "]]")) =
      .ok (strL "[[date:" ++ (strL "2024-05-01" ++ strL "]]")) :=
  c8_date_passthrough (strL "2024-05-01") (by decide) (by decide)

/-! ## Structural conversion lemmas (claims C1, C2, C4) -/

theorem headNotWs_elim (l : List Char) (h : headNotWs l = true) :
    ∃ c r, l = c :: r ∧ wsB c = false := by
  cases l with
  | nil => simp [headNotWs] at h
  | cons c r =>
    refine ⟨c, r, rfl, ?_⟩
    simpa [headNotWs] using h

theorem plainHeadB_elim (l : List Char) (h : plainHeadB l = true) :
    ∃ c r, l = c :: r ∧ wsB c = false ∧ c ≠ '#' ∧ c ≠ '`' := by
  cases l with
  | nil => simp [plainHeadB] at h
  | cons c r =>
    simp only [plainHeadB, List.head?_cons, Bool.and_eq_true,
      Bool.not_eq_true', decide_eq_true_eq] at h
    exact ⟨c, r, rfl, h.1.1, h.1.2, h.2⟩

theorem lastNotWs_cons (c : Char) (l : List Char) (h : lastNotWs l = true) :
    lastNotWs (c :: l) = true := by
  cases l with
  | nil => simp [lastNotWs] at h
  | cons b bs => simpa [lastNotWs, List.getLast?_cons_cons] using h

theorem lastNotWs_append (A B : List Char) (h : lastNotWs B = true) :
    lastNotWs (A ++ B) = true := by
  cases hB : B.getLast? with
  | none => simp [lastNotWs, hB] at h
  | some c =>
    simp only [lastNotWs, hB] at h
    simp [lastNotWs, List.getLast?_append, hB, h]

theorem headNotWs_of_cons (c : Char) (l : List Char) (h : wsB c = false) :
    headNotWs (c :: l) = true := by
  simp [headNotWs, h]

theorem takeWhile_hash_replicate (n : Nat) (t : List Char) :
    (List.replicate n '#' ++ ' ' :: t).takeWhile (· = '#') =
      List.replicate n '#' := by
  induction n with
  | zero => simp [List.takeWhile_cons]
  | succ k ih =>
    simp only [List.replicate_succ, List.cons_append, List.takeWhile_cons]
    simp [ih]

theorem headerMatch_heading (k : Nat) (t : List Char) (h2 : k + 1 ≤ 6)
    (h3 : headNotWs t = true) (h5 : noNl t = true) :
    headerMatch (List.replicate (k + 1) '#' ++ ' ' :: t) = some t := by
  have hne : t ≠ [] := by
    rcases headNotWs_elim t h3 with ⟨c, r, rfl, _⟩
    simp
  have hcont : t.contains '\n' = false := by
    simpa [noNl, Bool.not_eq_true'] using h5
  have hws : (' ' :: t).takeWhile wsB = [' '] := by
    rw [List.takeWhile_cons]
    simp [show wsB ' ' = true from rfl, takeWhile_nil_of_headNotWs t h3]
  rw [headerMatch, takeWhile_hash_replicate (k + 1) t, List.drop_left, hws]
  simp only [List.length_replicate, List.length_singleton, List.drop_one,
    List.tail_cons]
  rw [if_neg (by simp only [Bool.or_eq_true, decide_eq_true_eq]; omega),
    if_pos hne, if_neg (by rw [hcont]; simp)]

/-- Claim C1 (amended): a heading line of any level 1-6 is emitted at
nesting depth 0 (headers are always assigned parent `-1`), with content
`!! ` followed by the heading text (the `#` run and the following
whitespace removed).  The claim's depth `level − 1` holds only for level
1. -/
theorem c1_amended (L : Nat) (t : List Char) (h1 : 1 ≤ L) (h2 : L ≤ 6)
    (h3 : headNotWs t = true) (h4 : lastNotWs t = true) (h5 : noNl t = true) :
    convert_to_tana (List.replicate L '#' ++ ' ' :: t) =
      .ok (strL "%%tana%%\n- !! " ++ t) := by
  obtain ⟨k, rfl⟩ : ∃ k, L = k + 1 := ⟨L - 1, by omega⟩
  set hl := List.replicate (k + 1) '#' ++ ' ' :: t with hhl
  have hlcons : hl = '#' :: (List.replicate k '#' ++ ' ' :: t) := by
    rw [hhl, List.replicate_succ, List.cons_append]
  have hnonnil : hl ≠ [] := by rw [hlcons]; simp
  have hnl : '\n' ∉ hl := by
    rw [hhl]
    intro hm
    rcases List.mem_append.mp hm with h | h
    · rcases List.mem_replicate.mp h with ⟨_, hc⟩
      exact absurd hc (by decide)
    · rcases List.mem_cons.mp h with hc | hc
      · exact absurd hc (by decide)
      · exact not_mem_of_noNl t h5 hc
  have hheadok : headNotWs hl = true := by
    rw [hlcons]; exact headNotWs_of_cons _ _ (by decide)
  have hlastok : lastNotWs hl = true := by
    rw [hhl]
    refine lastNotWs_append _ _ ?_
    exact lastNotWs_cons _ _ h4
  have hrstrip : pyRstrip hl = hl := pyRstrip_of_lastNotWs hl hlastok
  have hstrip : pyStrip hl = hl := pyStrip_trimmed hl hheadok hlastok
  have hparse : parse_line hl =
      { content := hl, indent := 0, raw := hl, is_header := true,
        is_code_block := false, parent := none } := by
    rw [parse_line_headNotWs hl hheadok, hrstrip]
    have hh : startsWithL (strL "#") hl = true := by
      rw [hlcons]; simp [startsWithL, strL]
    have ht : startsWithL (strL "```") hl = false := by
      rw [hlcons]; exact startsWith_ticks_false _ _ (by decide)
    rw [hh, ht]
  have hsplit : splitNl hl = [hl] := splitNl_no_nl hl hnl
  rw [convert_to_tana, if_neg hnonnil, hsplit]
  simp only [List.map_cons, List.map_nil, hparse]
  rw [build_hierarchy, if_neg (by simp)]
  simp only [buildAux, hstrip]
  rw [if_neg hnonnil]
  simp only [Bool.false_eq_true, if_false, if_true]
  simp only [emitLoop, hstrip]
  rw [if_neg hnonnil]
  simp only [Bool.false_eq_true, Bool.false_or, if_false, if_true,
    headerMatch_heading k t h2 h3 h5]
  simp only [depthOf]
  rw [if_pos (show (-1 : Int) < 0 by decide)]
  show Except.ok (joinNl [strL "%%tana%%",
    indentChars 0 ++ (strL "- " ++ (strL "!! " ++ t))]) =
    Except.ok (strL "%%tana%%\n- !! " ++ t)
  exact congrArg Except.ok rfl

/-- Claim C1 witness: the amended theorem at level 2, heading text
`A`. -/
theorem c1_witness :
    convert_to_tana (List.replicate 2 '#' ++ ' ' :: strL "A") =
      .ok (strL "%%tana%%\n- !! " ++ strL "A") :=
  c1_amended 2 (strL "A") (by decide) (by decide) (by decide) (by decide)
    (by decide)

theorem headNotWs_of_plain (l : List Char) (h : plainHeadB l = true) :
    headNotWs l = true := by
  rcases plainHeadB_elim l h with ⟨c, r, rfl, hw, _, _⟩
  exact headNotWs_of_cons c r hw

theorem lastNotWs_ne_nil (l : List Char) (h : lastNotWs l = true) : l ≠ [] := by
  intro hnil
  rw [hnil] at h
  simp [lastNotWs] at h

/-- Claim C2 (amended): a zero-indent list item immediately after a
heading is emitted exactly one nesting level below the heading; with an
intervening paragraph line, the list item is still parented to the
heading, so it is emitted at the same depth as the paragraph (one level
below the heading), not one level deeper than the paragraph.  The
hypotheses on the three texts say they are trimmed single-line texts with
unremarkable first characters, and that the per-line content pipeline
(list-marker strip, fields, dates, inline formatting) leaves the
paragraph text and the item text unchanged. -/
theorem c2_amended (hd pa it : List Char)
    (hhd1 : headNotWs hd = true) (hhd2 : lastNotWs hd = true)
    (hhd3 : noNl hd = true)
    (hpa1 : plainHeadB pa = true) (hpa2 : lastNotWs pa = true)
    (hpa3 : noNl pa = true)
    (hit1 : lastNotWs it = true) (hit2 : noNl it = true)
    (hppa : processTextContent pa = .ok pa)
    (hpit : processTextContent ('-' :: ' ' :: it) = .ok it) :
    convert_to_tana (('#' :: ' ' :: hd) ++ '\n' :: ('-' :: ' ' :: it)) =
      .ok (joinNl [strL "%%tana%%", strL "- !! " ++ hd, strL "  - " ++ it]) ∧
    convert_to_tana (('#' :: ' ' :: hd) ++ '\n' :: (pa ++ '\n' :: ('-' :: ' ' :: it))) =
      .ok (joinNl [strL "%%tana%%", strL "- !! " ++ hd, strL "  - " ++ pa,
        strL "  - " ++ it]) := by
  have hnl0 : '\n' ∉ '#' :: ' ' :: hd := by
    intro hm
    rcases List.mem_cons.mp hm with hc | hm2
    · exact absurd hc (by decide)
    · rcases List.mem_cons.mp hm2 with hc | hm3
      · exact absurd hc (by decide)
      · exact not_mem_of_noNl hd hhd3 hm3
  have hnl1 : '\n' ∉ pa := not_mem_of_noNl pa hpa3
  have hnl2 : '\n' ∉ '-' :: ' ' :: it := by
    intro hm
    rcases List.mem_cons.mp hm with hc | hm2
    · exact absurd hc (by decide)
    · rcases List.mem_cons.mp hm2 with hc | hm3
      · exact absurd hc (by decide)
      · exact not_mem_of_noNl it hit2 hm3
  have hlast0 : lastNotWs ('#' :: ' ' :: hd) = true :=
    lastNotWs_cons _ _ (lastNotWs_cons _ _ hhd2)
  have hlast2 : lastNotWs ('-' :: ' ' :: it) = true :=
    lastNotWs_cons _ _ (lastNotWs_cons _ _ hit1)
  have hstrip0 : pyStrip ('#' :: ' ' :: hd) = '#' :: ' ' :: hd :=
    pyStrip_trimmed _ (headNotWs_of_cons _ _ (by decide)) hlast0
  have hstrip1 : pyStrip pa = pa :=
    pyStrip_trimmed _ (headNotWs_of_plain pa hpa1) hpa2
  have hstrip2 : pyStrip ('-' :: ' ' :: it) = '-' :: ' ' :: it :=
    pyStrip_trimmed _ (headNotWs_of_cons _ _ (by decide)) hlast2
  have hparse0 : parse_line ('#' :: ' ' :: hd) =
      LineRec.mk ('#' :: ' ' :: hd) 0 ('#' :: ' ' :: hd) true false none := by
    rw [parse_line_headNotWs _ (headNotWs_of_cons _ _ (by decide)),
      pyRstrip_of_lastNotWs _ hlast0]
    simp [startsWithL, strL, List.take_cons]
  have hparse1 : parse_line pa = LineRec.mk pa 0 pa false false none := by
    rcases plainHeadB_elim pa hpa1 with ⟨cp, rp, hpc, hpw, hph, hpt⟩
    have hh : startsWithL (strL "#") pa = false := by
      rw [hpc]; exact startsWith_hash_false cp rp hph
    have ht : startsWithL (strL "```") pa = false := by
      rw [hpc]; exact startsWith_ticks_false cp rp hpt
    rw [parse_line_headNotWs _ (headNotWs_of_plain pa hpa1),
      pyRstrip_of_lastNotWs _ hpa2, hh, ht]
  have hparse2 : parse_line ('-' :: ' ' :: it) =
      LineRec.mk ('-' :: ' ' :: it) 0 ('-' :: ' ' :: it) false false none := by
    rw [parse_line_headNotWs _ (headNotWs_of_cons _ _ (by decide)),
      pyRstrip_of_lastNotWs _ hlast2]
    rw [startsWith_hash_false _ _ (by decide),
      startsWith_ticks_false _ _ (by decide)]
  have hhm : headerMatch ('#' :: ' ' :: hd) = some hd := by
    have := headerMatch_heading 0 hd (by omega) hhd1 hhd3
    simpa [List.replicate] using this
  have hlevel : (('#' :: ' ' :: hd).takeWhile (· = '#')) = ['#'] := by
    simp [List.takeWhile_cons]
  constructor
  · -- heading directly followed by the list item
    have hsplit : splitNl (('#' :: ' ' :: hd) ++ '\n' :: ('-' :: ' ' :: it)) =
        [('#' :: ' ' :: hd), ('-' :: ' ' :: it)] := by
      rw [splitNl_append _ _ hnl0, splitNl_no_nl _ hnl2]
    rw [convert_to_tana, if_neg (by simp), hsplit]
    simp only [List.map_cons, List.map_nil, hparse0, hparse2]
    rw [build_hierarchy, if_neg (by simp)]
    simp only [buildAux, hstrip0, hstrip2, hlevel, parentFor, stackUpdate,
      stackLast]
    simp
    simp only [emitLoop, hstrip0, hstrip2, hhm, hppa, hpit, depthOf,
      depthWalk, indentChars]
    simp
    rfl
  · -- heading, paragraph, list item
    have hsplit : splitNl (('#' :: ' ' :: hd) ++ '\n' ::
        (pa ++ '\n' :: ('-' :: ' ' :: it))) =
        [('#' :: ' ' :: hd), pa, ('-' :: ' ' :: it)] := by
      rw [splitNl_append _ _ hnl0, splitNl_append _ _ hnl1,
        splitNl_no_nl _ hnl2]
    have hpane : pa ≠ [] := by
      rcases plainHeadB_elim pa hpa1 with ⟨c, r, rfl, _⟩
      simp
    rw [convert_to_tana, if_neg (by simp), hsplit]
    simp only [List.map_cons, List.map_nil, hparse0, hparse1, hparse2]
    rw [build_hierarchy, if_neg (by simp)]
    simp only [buildAux, hstrip0, hstrip1, hstrip2, hlevel, parentFor,
      stackUpdate, stackLast]
    simp [hpane]
    simp only [emitLoop, hstrip0, hstrip1, hstrip2, hhm, hppa, hpit, depthOf,
      depthWalk, indentChars]
    simp [hpane]
    rfl

/-- Claim C2 witness: the amended theorem at heading text `H`, paragraph
`para`, item `item`. -/
theorem c2_witness :
    convert_to_tana (('#' :: ' ' :: strL "H") ++ '\n' :: ('-' :: ' ' :: strL "item")) =
      .ok (joinNl [strL "%%tana%%", strL "- !! " ++ strL "H",
        strL "  - " ++ strL "item"]) ∧
    convert_to_tana (('#' :: ' ' :: strL "H") ++ '\n' ::
        (strL "para" ++ '\n' :: ('-' :: ' ' :: strL "item"))) =
      .ok (joinNl [strL "%%tana%%", strL "- !! " ++ strL "H",
        strL "  - " ++ strL "para", strL "  - " ++ strL "item"]) :=
  c2_amended (strL "H") (strL "para") (strL "item") (by decide) (by decide)
    (by decide) (by decide) (by decide) (by decide) (by decide) (by decide)
    (by decide) (by decide)

/-! ## Fenced code blocks (claim C4) -/

theorem parse_line_plain (l : List Char) (h : plainHeadB l = true) :
    parse_line l = LineRec.mk (pyRstrip l) 0 l false false none := by
  rcases plainHeadB_elim l h with ⟨c, r, rfl, hw, hh, ht⟩
  have h1 : startsWithL (strL "#") (pyRstrip (c :: r)) = false := by
    rw [pyRstrip_cons_of_head c r hw]
    exact startsWith_hash_false _ _ hh
  have h2 : startsWithL (strL "```") (pyRstrip (c :: r)) = false := by
    rw [pyRstrip_cons_of_head c r hw]
    exact startsWith_ticks_false _ _ ht
  rw [parse_line_headNotWs _ (headNotWs_of_cons c r hw), h1, h2]

theorem pyRstrip_ne_nil (l : List Char) (h : headNotWs l = true) :
    pyRstrip l ≠ [] := by
  rcases headNotWs_elim l h with ⟨c, r, rfl, hw⟩
  rw [pyRstrip_cons_of_head c r hw]
  simp

theorem pyStrip_pyRstrip (l : List Char) (h : headNotWs l = true) :
    pyStrip (pyRstrip l) = pyRstrip l := by
  rcases headNotWs_elim l h with ⟨c, r, rfl, hw⟩
  have hh : headNotWs (pyRstrip (c :: r)) = true := by
    rw [pyRstrip_cons_of_head c r hw]
    exact headNotWs_of_cons c _ hw
  rw [pyStrip_of_headNotWs _ hh, pyRstrip_idem]

theorem all_ws_false_of_plain (l : List Char) (h : plainHeadB l = true) :
    l.all wsB = false := by
  rcases plainHeadB_elim l h with ⟨c, r, rfl, hw, _, _⟩
  simp [List.all_cons, hw]

theorem c4_buildAux (ls : List (List Char)) :
    ∀ (i : Nat) (p : Int),
    (∀ l ∈ ls, plainHeadB l = true ∨ l.all wsB = true) →
    buildAux (ls.map parse_line ++ [parse_line (strL "```")]) i none [p] =
      .ok (ls.map fenceInner ++
        [LineRec.mk (strL "```") 0 (strL "```") false true
          (some (fenceParent ls i p))]) := by
  induction ls with
  | nil =>
    intro i p h
    have hpf : parse_line (strL "```") =
        LineRec.mk (strL "```") 0 (strL "```") false true none := by decide
    have hfs : pyStrip (strL "```") = strL "```" := by decide
    have hfne : strL "```" ≠ [] := by decide
    simp only [List.map_nil, List.nil_append, hpf]
    simp [buildAux, stackLast, hfs, hfne, fenceParent]
  | cons l rest ih =>
    intro i p h
    rcases h l (by simp) with hl | hbl
    · have hblf : l.all wsB = false := all_ws_false_of_plain l hl
      have hp := parse_line_plain l hl
      have hs : pyStrip (pyRstrip l) = pyRstrip l :=
        pyStrip_pyRstrip l (headNotWs_of_plain l hl)
      have hne : pyRstrip l ≠ [] := pyRstrip_ne_nil l (headNotWs_of_plain l hl)
      simp only [List.map_cons, List.cons_append, hp]
      simp only [buildAux, hs]
      rw [if_neg hne]
      simp only [Bool.false_eq_true, if_false, parentFor, stackUpdate]
      simp only [List.take, List.length_singleton]
      norm_num
      rw [ih (i + 1) ((i : Nat) : Int) (fun x hx => h x (by simp [hx]))]
      simp [fenceInner, fenceParent, hblf]
    · have hc : pyStrip (parse_line l).content = [] := by
        rw [parse_line_all_ws l (by simpa [List.all_eq_true] using hbl)]
        rfl
      simp only [List.map_cons, List.cons_append]
      simp only [buildAux, hc, if_pos]
      rw [ih (i + 1) p (fun x hx => h x (by simp [hx]))]
      simp [fenceInner, fenceParent, hbl]

theorem c4_emitLoop (all : List LineRec) (q : Int) (ls : List (List Char)) :
    ∀ acc, (∀ l ∈ ls, plainHeadB l = true ∨ l.all wsB = true) →
    emitLoop all
        (ls.map fenceInner ++
          [LineRec.mk (strL "```") 0 (strL "```") false true (some q)])
        true acc =
      .ok [indentChars (depthOf all (some q)) ++ strL "- " ++
        process_code_block
          (acc ++ (ls.filter (fun l => !l.all wsB) ++ [strL "```"]))] := by
  induction ls with
  | nil =>
    intro acc h
    have hfs : pyStrip (strL "```") = strL "```" := by decide
    have hfne : strL "```" ≠ [] := by decide
    simp only [List.map_nil, List.nil_append, List.filter_nil]
    simp [emitLoop, hfs, hfne]
  | cons l rest ih =>
    intro acc h
    rcases h l (by simp) with hl | hbl
    · have hblf : l.all wsB = false := all_ws_false_of_plain l hl
      have hs : pyStrip (pyRstrip l) = pyRstrip l :=
        pyStrip_pyRstrip l (headNotWs_of_plain l hl)
      have hne : pyRstrip l ≠ [] := pyRstrip_ne_nil l (headNotWs_of_plain l hl)
      simp only [List.map_cons, List.cons_append, fenceInner, hblf,
        Bool.false_eq_true, if_false]
      simp only [emitLoop, hs]
      rw [if_neg hne]
      simp only [Bool.false_eq_true, Bool.false_or, if_false, if_true,
        Bool.not_true]
      rw [ih (acc ++ [l]) (fun x hx => h x (by simp [hx]))]
      simp [List.filter_cons, hblf, List.append_assoc]
    · have hc : pyStrip (parse_line l).content = [] := by
        rw [parse_line_all_ws l (by simpa [List.all_eq_true] using hbl)]
        rfl
      simp only [List.map_cons, List.cons_append, fenceInner, hbl, if_true]
      simp only [emitLoop, hc, if_pos]
      rw [ih acc (fun x hx => h x (by simp [hx]))]
      simp [List.filter_cons, hbl]

theorem c4_depth (r0 rc : LineRec) (ls : List (List Char)) (j : Nat)
    (l : List Char) (hj : ls.get? j = some l) (hbl : l.all wsB = false) :
    depthOf (r0 :: (ls.map fenceInner ++ [rc]))
      (some ((j + 1 : Nat) : Int)) = 1 := by
  have hjlt : j < ls.length := by
    by_contra hc
    rw [List.get?_eq_none.mpr (by omega)] at hj
    exact Option.noConfusion hj
  rw [depthOf]
  rw [if_neg (by simp; omega)]
  have hlen : (r0 :: (ls.map fenceInner ++ [rc])).length = ls.length + 2 := by
    simp
  rw [hlen]
  show 1 + depthWalk _ (ls.length + 2) (Int.toNat ((j + 1 : Nat) : Int)) = 1
  rw [show Int.toNat ((j + 1 : Nat) : Int) = j + 1 from by simp]
  rw [show ls.length + 2 = (ls.length + 1) + 1 from rfl]
  rw [depthWalk]
  have hgetall : (r0 :: (ls.map fenceInner ++ [rc])).get? (j + 1) =
      some (fenceInner l) := by
    rw [List.get?_cons_succ, List.get?_append (by simpa using hjlt),
      List.get?_map, hj]
    rfl
  rw [hgetall]
  simp [fenceInner, hbl]

theorem fenceParent_spec (ls : List (List Char)) :
    ∀ (i : Nat) (p : Int),
    (ls.filter (fun l => !l.all wsB) = [] ∧ fenceParent ls i p = p) ∨
    (∃ j l, ls.get? j = some l ∧ l.all wsB = false ∧
      fenceParent ls i p = ((i + j : Nat) : Int)) := by
  induction ls with
  | nil => intro i p; exact Or.inl ⟨rfl, rfl⟩
  | cons l rest ih =>
    intro i p
    by_cases hbl : l.all wsB = true
    · have hfp : fenceParent (l :: rest) i p = fenceParent rest (i + 1) p := by
        simp [fenceParent, hbl]
      rcases ih (i + 1) p with ⟨hf, hv⟩ | ⟨j, l2, hj, hb2, hv⟩
      · exact Or.inl ⟨by simp [List.filter_cons, hbl, hf], by rw [hfp, hv]⟩
      · refine Or.inr ⟨j + 1, l2, by simpa using hj, hb2, ?_⟩
        rw [hfp, hv]
        congr 1
        omega
    · have hblf : l.all wsB = false := by simpa using hbl
      have hfp : fenceParent (l :: rest) i p =
          fenceParent rest (i + 1) ((i : Nat) : Int) := by
        simp [fenceParent, hblf]
      rcases ih (i + 1) ((i : Nat) : Int) with ⟨hf, hv⟩ | ⟨j, l2, hj, hb2, hv⟩
      · refine Or.inr ⟨0, l, rfl, hblf, ?_⟩
        rw [hfp, hv]
        simp
      · refine Or.inr ⟨j + 1, l2, by simpa using hj, hb2, ?_⟩
        rw [hfp, hv]
        congr 1
        omega

theorem process_code_block_fence (ls : List (List Char)) :
    process_code_block (strL "```" :: (ls ++ [strL "```"])) =
      joinNl (ls.map pyStrip) := by
  simp [process_code_block]

/-- Claim C4 (amended): a fenced code block whose interior lines are
blank or start with an unremarkable non-whitespace character is emitted
as exactly one output node, whose text is the non-blank interior lines
joined with line breaks, each first stripped of its surrounding
whitespace (`process_code_block` joins `line.strip()`, and the emitter
drops blank lines before collecting the block, so the raw interior text
is not preserved); both fence delimiter lines are excluded.  An interior
line indented past the hierarchy stack — such as a sole four-space
indented line — instead aborts the conversion with an index error, so no
node at all is emitted for that block. -/
theorem c4_amended (ls : List (List Char))
    (h : ∀ l ∈ ls, plainHeadB l = true ∨ l.all wsB = true)
    (hnl : ∀ l ∈ ls, noNl l = true) :
    (convert_to_tana (joinNl (strL "```" :: (ls ++ [strL "```"]))) =
      .ok (strL "%%tana%%" ++ '\n' ::
        ((if ls.filter (fun l => !l.all wsB) = [] then []
          else strL "  ") ++ strL "- " ++
          joinNl ((ls.filter (fun l => !l.all wsB)).map pyStrip)))) ∧
    convert_to_tana (strL "```\n    x\n```") = .error .indexError := by
  refine ⟨?_, by decide⟩
  have hpieces : ∀ p ∈ strL "```" :: (ls ++ [strL "```"]), '\n' ∉ p := by
    intro p hp
    rcases List.mem_cons.mp hp with h1 | h1
    · subst h1; decide
    · rcases List.mem_append.mp h1 with h2 | h2
      · exact not_mem_of_noNl p (hnl p h2)
      · simp only [List.mem_singleton] at h2
        subst h2; decide
  have hsplit : splitNl (joinNl (strL "```" :: (ls ++ [strL "```"]))) =
      strL "```" :: (ls ++ [strL "```"]) :=
    splitNl_joinNl _ hpieces (by simp)
  have hinput_ne : joinNl (strL "```" :: (ls ++ [strL "```"])) ≠ [] := by
    rw [joinNl_cons _ _ (by simp)]
    simp
  have hpf : parse_line (strL "```") =
      LineRec.mk (strL "```") 0 (strL "```") false true none := by decide
  have hfs : pyStrip (strL "```") = strL "```" := by decide
  have hfne : strL "```" ≠ [] := by decide
  rw [convert_to_tana, if_neg hinput_ne, hsplit]
  simp only [List.map_cons, List.map_append, List.map_nil, hpf]
  rw [build_hierarchy, if_neg (by simp)]
  simp only [buildAux, hfs, stackLast]
  rw [if_neg hfne]
  simp only [if_true]
  rw [← hpf, c4_buildAux ls (0 + 1) (-1) h]
  simp only [List.getLast?_singleton, Option.getD_some]
  simp only [emitLoop, hfs]
  rw [if_neg hfne]
  simp only [if_true, Bool.true_or, Bool.not_false, if_false]
  rw [c4_emitLoop _ _ ls [strL "```"] h]
  simp only [List.singleton_append]
  rw [process_code_block_fence]
  rcases fenceParent_spec ls (0 + 1) (-1) with ⟨hkept, hval⟩ | ⟨j, l, hj, hbl, hval⟩
  · rw [hval]
    simp [hkept, depthOf, indentChars]
    try rfl
  · rw [hval,
      show ((0 + 1 + j : Nat) : Int) = ((j + 1 : Nat) : Int) from by
        norm_num [Nat.add_comm]]
    rw [c4_depth _ _ ls j l hj hbl]
    have hkne : ls.filter (fun l2 => !l2.all wsB) ≠ [] :=
      List.ne_nil_of_mem
        (List.mem_filter.mpr ⟨List.get?_mem hj, by simp [hbl]⟩)
    simp [hkne, indentChars]
    try rfl

/-- Claim C4 witness: the amended theorem at the interior lines `a `
(with a trailing space that gets stripped), a blank line (dropped from
the node), and `b`. -/
theorem c4_witness :
    (convert_to_tana (joinNl (strL "```" ::
        ([strL "a ", strL "", strL "b"] ++ [strL "```"]))) =
      .ok (strL "%%tana%%" ++ '\n' ::
        ((if ([strL "a ", strL "", strL "b"] : List (List Char)).filter
              (fun l => !l.all wsB) = [] then []
          else strL "  ") ++ strL "- " ++
          joinNl ((([strL "a ", strL "", strL "b"] : List (List Char)).filter
            (fun l => !l.all wsB)).map pyStrip)))) ∧
    convert_to_tana (strL "```\n    x\n```") = .error .indexError :=
  c4_amended [strL "a ", strL "", strL "b"] (by decide) (by decide)

end Tana
